import Mathlib

/-!
Verification of the ButceTakip budget ingestion-and-reconciliation engine.

This file gives a shallow embedding of the engine's core (the importer in
`app/services/importer.py`, the aggregator in `app/services/analytics.py`,
the cleanup/resequencer in `app/services/cleanup.py` and the
purchase-reminder listing in `app/routers/purchase_reminders.py`) and proves
or refutes the frozen specification claims about it.

Modelling conventions:
- Python `int` is modelled as `Int`, Python `float` amounts as `Rat`
  (the engine only ever adds and compares decimal amounts).
- The relational store is modelled as a record of lists of rows; a SQLModel
  `session` whose every write is immediately committed is modelled by
  threading the store through each helper.  A per-record `try/except` with
  `session.rollback()` is modelled by returning the store as committed at
  the point of failure (all pending work of the failing record discarded).
- Fallible Python code (KeyError, ValueError, HTTPException) is modelled
  with `Option`/`Except`.
- Strings are manipulated through their character lists (`String.data`);
  `str.lower`/`str.upper` are modelled with ASCII case folding, which agrees
  with Python on every string the claims touch.
-/

/-- Python date value (`datetime.date`): a plain year/month/day triple. -/
structure PDate where
  year : Int
  month : Int
  day : Int
deriving DecidableEq, Repr

/-- Expense lifecycle status (`app/models.py`, `ExpenseStatus`). -/
inductive ExpenseStatus where
  | recorded
  | cancelled
deriving DecidableEq, Repr

/-- Budget line item (`app/models.py`, `BudgetItem`).  `created_at` is the
creation timestamp used by the cleanup resequencer's ordering; `id` is the
autoincrement primary key. -/
structure BudgetItem where
  id : Nat
  code : String
  name : String
  map_attribute : Option String
  capex_opex : Option String
  asset_type : Option String
  created_at : Nat
deriving DecidableEq, Repr

/-- Planning scenario (`app/models.py`, `Scenario`). -/
structure Scenario where
  id : Nat
  name : String
  year : Int
deriving DecidableEq, Repr

/-- Planned spend row (`app/models.py`, `PlanEntry`).  The optional
`budget_code` column is referenced by the purchase-reminders router
(`PlanEntry.budget_code`) although the copy of `models.py` in the tree
omits it; it is modelled here, from the spec's per-item/month/scenario/
department reminder key, as an optional per-row code override that defaults
to null.  `department` is the optional department tag from `models.py`. -/
structure PlanEntry where
  year : Int
  month : Int
  amount : Rat
  scenario_id : Nat
  budget_item_id : Nat
  department : Option String := none
  budget_code : Option String := none
deriving DecidableEq, Repr

/-- Actual expenditure row (`app/models.py`, `Expense`). -/
structure Expense where
  budget_item_id : Nat
  scenario_id : Option Nat
  expense_date : PDate
  amount : Rat
  quantity : Rat
  unit_price : Rat
  vendor : Option String := none
  description : Option String := none
  status : ExpenseStatus := ExpenseStatus.recorded
  is_out_of_budget : Bool := false
deriving DecidableEq, Repr

/-- Modelled from the spec: the extended purchase-form status row
(`PurchaseFormStatusExt`) that the purchase-reminders router imports from
`app.models` but which is missing from the `models.py` in the tree.  Per the
spec, the "form prepared" flag is a sticky boolean keyed by budget code,
year, month, scenario and department, set only by the mark-prepared
mutation. -/
structure PurchaseFormStatusExt where
  budget_code : String
  year : Int
  month : Int
  scenario_id : Nat
  department : String
  is_form_prepared : Bool
deriving DecidableEq, Repr

/-- The relational store visible to the engine: one list of committed rows
per table, plus autoincrement counters and a creation-time clock. -/
structure DB where
  items : List BudgetItem := []
  scenarios : List Scenario := []
  plans : List PlanEntry := []
  expenses : List Expense := []
  statuses : List PurchaseFormStatusExt := []
  next_item_id : Nat := 0
  next_scenario_id : Nat := 0
  clock : Nat := 0
deriving DecidableEq, Repr

/-- Import run summary (`app/schemas.py`, `ImportSummary`). -/
structure ImportSummary where
  imported_plans : Nat := 0
  imported_expenses : Nat := 0
  skipped_rows : Nat := 0
  message : Option String := none
deriving DecidableEq, Repr

/-- Characters treated as whitespace by Python's `str.strip` (ASCII part). -/
def isPyWs (c : Char) : Bool :=
  c = ' ' || c = '\t' || c = '\n' || c = '\r' || c = '\x0b' || c = '\x0c'

/-- Strip leading and trailing whitespace from a character list
(Python `str.strip()`). -/
def stripWsL (l : List Char) : List Char :=
  ((l.dropWhile isPyWs).reverse.dropWhile isPyWs).reverse

/-- Strip leading and trailing whitespace from a string. -/
def stripWs (s : String) : String :=
  String.mk (stripWsL s.data)

/-- Numeric value of a list of decimal digit characters, most significant
first. -/
def digitsVal (l : List Char) : Nat :=
  l.foldl (fun a c => a * 10 + (c.toNat - 48)) 0

/-- Sign-resolved digit run of a float literal's exponent. -/
def parseExpDigits (l : List Char) (sgn : Int) : Option Int :=
  let ds := l.takeWhile Char.isDigit
  let rest := l.dropWhile Char.isDigit
  if ds = [] ∨ rest ≠ [] then none
  else some (sgn * (digitsVal ds : Int))

/-- Parse the exponent tail of a Python float literal: an optional sign
followed by one or more digits, consuming the whole remainder. -/
def parseExpTail (l : List Char) : Option Int :=
  match l with
  | '+' :: r => parseExpDigits r 1
  | '-' :: r => parseExpDigits r (-1)
  | r => parseExpDigits r 1

/-- Scale a rational by a signed power of ten. -/
def scalePow10 (q : Rat) (k : Int) : Rat :=
  if 0 ≤ k then q * (10 : Rat) ^ k.toNat else q / (10 : Rat) ^ (-k).toNat

/-- Parse the unsigned body of a Python float literal: digits, an optional
fractional part, and an optional exponent part, consuming the whole input.
Models CPython's `float(str)` grammar on the decimal forms the importer can
meet (the rarely used `inf`/`nan` words and digit-group underscores are not
modelled). -/
def pythonFloatCore (l : List Char) : Option Rat :=
  let ip := l.takeWhile Char.isDigit
  let r1 := l.dropWhile Char.isDigit
  match r1 with
  | [] => if ip = [] then none else some ((digitsVal ip : Nat) : Rat)
  | '.' :: r2 =>
    let fp := r2.takeWhile Char.isDigit
    let r3 := r2.dropWhile Char.isDigit
    if ip = [] ∧ fp = [] then none
    else
      let base : Rat := ((digitsVal ip : Nat) : Rat)
        + ((digitsVal fp : Nat) : Rat) / (10 : Rat) ^ fp.length
      match r3 with
      | [] => some base
      | 'e' :: r4 => (parseExpTail r4).map (scalePow10 base)
      | 'E' :: r4 => (parseExpTail r4).map (scalePow10 base)
      | _ => none
  | 'e' :: r2 =>
    if ip = [] then none
    else (parseExpTail r2).map (scalePow10 ((digitsVal ip : Nat) : Rat))
  | 'E' :: r2 =>
    if ip = [] then none
    else (parseExpTail r2).map (scalePow10 ((digitsVal ip : Nat) : Rat))
  | _ => none

/-- Model of Python's `float(s)` on strings: strip whitespace, take an
optional sign, then the unsigned literal body. -/
def pythonFloat (s : String) : Option Rat :=
  match stripWsL s.data with
  | '+' :: r => pythonFloatCore r
  | '-' :: r => (pythonFloatCore r).map Neg.neg
  | r => pythonFloatCore r

/-- Model of Python's `int(s)` on strings: strip whitespace, optional sign,
then one or more decimal digits consuming the whole remainder. -/
def pythonInt (s : String) : Option Int :=
  let body (l : List Char) (sgn : Int) : Option Int :=
    let ds := l.takeWhile Char.isDigit
    let rest := l.dropWhile Char.isDigit
    if ds = [] ∨ rest ≠ [] then none else some (sgn * (digitsVal ds : Int))
  match stripWsL s.data with
  | '+' :: r => body r 1
  | '-' :: r => body r (-1)
  | r => body r 1

/-- Number of days in a month of a given year (Gregorian). -/
def daysInMonth (y m : Int) : Int :=
  if m = 2 then
    if y % 4 = 0 ∧ (y % 100 ≠ 0 ∨ y % 400 = 0) then 29 else 28
  else if m = 4 ∨ m = 6 ∨ m = 9 ∨ m = 11 then 30
  else 31

/-- Model of `datetime.date.fromisoformat` on the canonical `YYYY-MM-DD`
form: four digits, dash, two digits, dash, two digits, with calendar
validation. -/
def dateFromIso (s : String) : Option PDate :=
  match s.data with
  | [y1, y2, y3, y4, '-', m1, m2, '-', d1, d2] =>
    if [y1, y2, y3, y4, m1, m2, d1, d2].all Char.isDigit then
      let y : Int := (digitsVal [y1, y2, y3, y4] : Nat)
      let m : Int := (digitsVal [m1, m2] : Nat)
      let d : Int := (digitsVal [d1, d2] : Nat)
      if 1 ≤ m ∧ m ≤ 12 ∧ 1 ≤ d ∧ d ≤ daysInMonth y m then
        some { year := y, month := m, day := d }
      else none
    else none
  | _ => none

/-- Substring test on character lists, modelling Python's `pat in hay`. -/
def containsSub (hay pat : List Char) : Bool :=
  match hay with
  | [] => pat.isEmpty
  | _ :: t => pat.isPrefixOf hay || containsSub t pat

/-- Python truthiness of an optional string (`if name:`): present and
non-empty. -/
def truthy (o : Option String) : Bool :=
  match o with
  | some s => s ≠ ""
  | none => false

/-- ASCII lower-casing of one character, modelling `str.lower` on the ASCII
strings the claims exercise. -/
def lowerChar (c : Char) : Char :=
  if 'A' ≤ c ∧ c ≤ 'Z' then Char.ofNat (c.toNat + 32) else c

/-- ASCII upper-casing of one character, modelling `str.upper` (applied by
the importer only to ASCII-filtered text). -/
def upperChar (c : Char) : Char :=
  if 'a' ≤ c ∧ c ≤ 'z' then Char.ofNat (c.toNat - 32) else c

/-- ASCII lower-casing of a string. -/
def lowerStr (s : String) : String :=
  String.mk (s.data.map lowerChar)

/-- The importer's `_normalize_optional_str`: strip, empty becomes `None`.
The input is already a string in every modelled call site. -/
def normalize_optional_str (v : Option String) : Option String :=
  match v with
  | none => none
  | some s =>
    let t := stripWs s
    if t = "" then none else some t

/-- The importer's `_normalize_capex_opex`: normalize, then map any text
containing `CAPEX`/`OPEX` (upper-cased) to the canonical token. -/
def normalize_capex_opex (v : Option String) : Option String :=
  match normalize_optional_str v with
  | none => none
  | some t =>
    let u := String.mk (t.data.map upperChar)
    if containsSub u.data "CAPEX".data then some "CAPEX"
    else if containsSub u.data "OPEX".data then some "OPEX"
    else some t

/-- One write-through patch line of `_ensure_budget_item`:
`if name and item.name != name: item.name = name`. -/
def patchName (item : BudgetItem) (name : Option String) : BudgetItem :=
  if truthy name ∧ some item.name ≠ name then { item with name := name.getD item.name }
  else item

/-- `if map_attribute and item.map_attribute != map_attribute: ...`. -/
def patchMap (item : BudgetItem) (m : Option String) : BudgetItem :=
  if truthy m ∧ item.map_attribute ≠ m then { item with map_attribute := m } else item

/-- `if capex_opex and item.capex_opex != capex_opex: ...`. -/
def patchCapex (item : BudgetItem) (k : Option String) : BudgetItem :=
  if truthy k ∧ item.capex_opex ≠ k then { item with capex_opex := k } else item

/-- `if asset_type and item.asset_type != asset_type: ...`. -/
def patchAsset (item : BudgetItem) (a : Option String) : BudgetItem :=
  if truthy a ∧ item.asset_type ≠ a then { item with asset_type := a } else item

/-- The four sequential patch lines of `_ensure_budget_item` applied to a
matched item. -/
def patchItem (item : BudgetItem) (name m k a : Option String) : BudgetItem :=
  patchAsset (patchCapex (patchMap (patchName item name) m) k) a

/-- The importer's `_ensure_budget_item` (`app/services/importer.py`):
return the first stored item with the given code, write-through patching
any provided, truthy classification field that differs; otherwise create a
new item, failing with an HTTP 400 when the name is missing or empty.
`Except.error` models the raised `HTTPException` (no write happens on that
path). -/
def ensure_budget_item (db : DB) (code : String) (name map_attribute capex_opex asset_type : Option String) :
    Except Unit (BudgetItem × DB) :=
  match db.items.find? (fun i => i.code = code) with
  | some item =>
    let item := patchItem item name map_attribute capex_opex asset_type
    Except.ok (item, { db with
      items := db.items.map (fun j => if j.id = item.id then item else j) })
  | none =>
    if ¬ truthy name then Except.error ()
    else
      let item : BudgetItem := {
        id := db.next_item_id
        code := code
        name := name.getD ""
        map_attribute := map_attribute
        capex_opex := capex_opex
        asset_type := asset_type
        created_at := db.clock }
      Except.ok (item, { db with
        items := db.items ++ [item]
        next_item_id := db.next_item_id + 1
        clock := db.clock + 1 })

/-- The importer's `_get_or_create_scenario` (`app/services/importer.py`):
with a truthy name, look the `(name, year)` pair up and create it when
absent; with no (or an empty) name, return the *first* scenario stored for
that year, creating a `"Default {year}"` scenario only when the year has
none at all. -/
def get_or_create_scenario (db : DB) (scenario_name : Option String) (year : Int) :
    Scenario × DB :=
  if truthy scenario_name then
    let n := scenario_name.getD ""
    match db.scenarios.find? (fun s => s.name = n ∧ s.year = year) with
    | some s => (s, db)
    | none =>
      let s : Scenario := { id := db.next_scenario_id, name := n, year := year }
      (s, { db with scenarios := db.scenarios ++ [s],
                    next_scenario_id := db.next_scenario_id + 1 })
  else
    match db.scenarios.find? (fun s => s.year = year) with
    | some s => (s, db)
    | none =>
      let s : Scenario :=
        { id := db.next_scenario_id, name := "Default " ++ toString year, year := year }
      (s, { db with scenarios := db.scenarios ++ [s],
                    next_scenario_id := db.next_scenario_id + 1 })

/-- One parsed CSV data row as produced by `csv.DictReader`: association
list from header name to cell text (keys unique, insertion order kept). -/
abbrev CsvRow : Type := List (String × String)

/-- Python `row.get(key)` / `row[key]` on a CSV row. -/
def rowGet (row : CsvRow) (k : String) : Option String :=
  (List.find? (fun p => p.1 = k) row).map Prod.snd

/-- Key normalization used by `_extract_text_with_aliases`: lower-case and
drop every character outside `[a-z0-9]`. -/
def normKey (s : String) : List Char :=
  (s.data.map lowerChar).filter
    (fun c => ('a' ≤ c ∧ c ≤ 'z') ∨ ('0' ≤ c ∧ c ≤ '9'))

/-- The importer's `_extract_text_with_aliases`: for each alias in order,
find the row key with the same normalized form (the *last* such key, since
the Python dict comprehension lets later keys overwrite earlier ones) and
return its stripped value when non-empty. -/
def extract_text_with_aliases (row : CsvRow) : List String → Option String
  | [] => none
  | a :: rest =>
    match (row.map Prod.fst).reverse.find? (fun k => normKey k = normKey a) with
    | none => extract_text_with_aliases row rest
    | some k =>
      match normalize_optional_str (rowGet row k) with
      | some c => some c
      | none => extract_text_with_aliases row rest

/-- The importer's `_extract_map_attribute`: probe the literal keys in
order, returning the first stripped non-empty value. -/
def extract_map_attribute (row : CsvRow) : Option String :=
  let go : List String → Option String := fun keys =>
    keys.foldr
      (fun key acc =>
        match normalize_optional_str (rowGet row key) with
        | some v => some v
        | none => acc)
      none
  go ["map_attribute", "map nitelik", "map-nitelik", "mapnitelik", "map_nitelik"]

/-- The importer's `_extract_capex_opex`. -/
def extract_capex_opex (row : CsvRow) : Option String :=
  normalize_capex_opex (extract_text_with_aliases row
    ["capex_opex", "capex opex", "capex-opex", "capex/opex", "capexopex"])

/-- The importer's `_extract_asset_type` (`_normalize_asset_type` is
strip-or-none). -/
def extract_asset_type (row : CsvRow) : Option String :=
  normalize_optional_str (extract_text_with_aliases row
    ["asset_type", "asset type", "varlik tipi", "varlik_tipi", "varliktipi"])

/-- Outcome of one CSV row inside `import_csv`'s per-row `try/except`. -/
inductive RowOutcome where
  | plan
  | expense
  | skipped
deriving DecidableEq, Repr

/-- Processing of a single CSV row by `import_csv`, following the source's
evaluation order exactly.  A failure at any point (missing column, failed
`int`/`float`/date coercion, or the missing-name `HTTPException` from
`_ensure_budget_item`) raises, and the enclosing handler rolls the session
back: the store returned with `RowOutcome.skipped` contains exactly the
writes already committed before the failure point. -/
def processCsvRow (db : DB) (row : CsvRow) : DB × RowOutcome :=
  let entry_type := lowerStr ((rowGet row "type").getD "plan")
  let map_attribute := extract_map_attribute row
  let capex_opex := extract_capex_opex row
  let asset_type := extract_asset_type row
  if entry_type = "plan" then
    match rowGet row "budget_code" with
    | none => (db, RowOutcome.skipped)
    | some code =>
      match ensure_budget_item db code (rowGet row "budget_name") map_attribute capex_opex asset_type with
      | Except.error _ => (db, RowOutcome.skipped)
      | Except.ok (item, db1) =>
        match (rowGet row "year").bind pythonInt with
        | none => (db1, RowOutcome.skipped)
        | some year =>
          let (scenario, db2) := get_or_create_scenario db1 (rowGet row "scenario") year
          match (rowGet row "month").bind pythonInt with
          | none => (db2, RowOutcome.skipped)
          | some month =>
            match (rowGet row "amount").bind pythonFloat with
            | none => (db2, RowOutcome.skipped)
            | some amount =>
              ({ db2 with plans := db2.plans ++ [{
                  year := year
                  month := month
                  amount := amount
                  scenario_id := scenario.id
                  budget_item_id := item.id }] },
               RowOutcome.plan)
  else if entry_type = "expense" then
    match rowGet row "budget_code" with
    | none => (db, RowOutcome.skipped)
    | some code =>
      match ensure_budget_item db code (rowGet row "budget_name") map_attribute capex_opex asset_type with
      | Except.error _ => (db, RowOutcome.skipped)
      | Except.ok (item, db1) =>
        match (rowGet row "year").bind pythonInt with
        | none => (db1, RowOutcome.skipped)
        | some year =>
          let (scenario, db2) := get_or_create_scenario db1 (rowGet row "scenario") year
          match (rowGet row "date").bind dateFromIso with
          | none => (db2, RowOutcome.skipped)
          | some d =>
            match (rowGet row "amount").bind pythonFloat with
            | none => (db2, RowOutcome.skipped)
            | some amount =>
              let qv :=
                match rowGet row "quantity" with
                | none => some (1 : Rat)
                | some s => if s = "" then some (1 : Rat) else pythonFloat s
              match qv with
              | none => (db2, RowOutcome.skipped)
              | some quantity =>
                let uv :=
                  match rowGet row "unit_price" with
                  | none => some (0 : Rat)
                  | some s => if s = "" then some (0 : Rat) else pythonFloat s
                match uv with
                | none => (db2, RowOutcome.skipped)
                | some unit_price =>
                  ({ db2 with expenses := db2.expenses ++ [{
                      budget_item_id := item.id
                      scenario_id := some scenario.id
                      expense_date := d
                      amount := amount
                      quantity := quantity
                      unit_price := unit_price
                      vendor := rowGet row "vendor"
                      description := rowGet row "description"
                      is_out_of_budget :=
                        lowerStr ((rowGet row "out_of_budget").getD "false") = "true" }] },
                   RowOutcome.expense)
  else (db, RowOutcome.skipped)

/-- Add one row outcome to a running `ImportSummary`. -/
def bumpSummary (oc : RowOutcome) (s : ImportSummary) : ImportSummary :=
  match oc with
  | RowOutcome.plan => { s with imported_plans := s.imported_plans + 1 }
  | RowOutcome.expense => { s with imported_expenses := s.imported_expenses + 1 }
  | RowOutcome.skipped => { s with skipped_rows := s.skipped_rows + 1 }

/-- The importer's `import_csv` main loop over the parsed `DictReader`
rows: every row is processed inside its own `try/except`, so the loop
always reaches the next row. -/
def import_csv (db : DB) : List CsvRow → DB × ImportSummary
  | [] => (db, { message := some "CSV import completed" })
  | r :: rest =>
    let p := processCsvRow db r
    let q := import_csv p.1 rest
    (q.1, bumpSummary p.2 q.2)

/-- One record of a JSON plan list (`{"plans": [...]}` or a bare list).
A missing field models the corresponding dict key being absent, which
raises `KeyError`/`TypeError` inside the per-record `try/except`.  The
classification fields stand for the alias-resolved optional columns. -/
structure JsonPlanEntry where
  budget_code : Option String := none
  budget_name : Option String := none
  scenario : Option String := none
  year : Option Int := none
  month : Option Int := none
  amount : Option Rat := none
  map_attribute : Option String := none
  capex_opex : Option String := none
  asset_type : Option String := none
deriving DecidableEq, Repr

/-- Processing of one record by `_import_plan_list`, following the
source's evaluation order.  Returns the committed store and whether the
record was imported; on failure the store keeps exactly the writes already
committed (the `except` clause only rolls pending work back — and, notably,
does not touch any skipped counter). -/
def processJsonPlanEntry (db : DB) (e : JsonPlanEntry) : DB × Bool :=
  let map_attribute := normalize_optional_str e.map_attribute
  let capex_opex := normalize_capex_opex e.capex_opex
  let asset_type := normalize_optional_str e.asset_type
  match e.budget_code with
  | none => (db, false)
  | some code =>
    match ensure_budget_item db code e.budget_name map_attribute capex_opex asset_type with
    | Except.error _ => (db, false)
    | Except.ok (item, db1) =>
      match e.year with
      | none => (db1, false)
      | some year =>
        let (scenario, db2) := get_or_create_scenario db1 e.scenario year
        match e.month with
        | none => (db2, false)
        | some month =>
          match e.amount with
          | none => (db2, false)
          | some amount =>
            ({ db2 with plans := db2.plans ++ [{
                year := year
                month := month
                amount := amount
                scenario_id := scenario.id
                budget_item_id := item.id }] },
             true)

/-- The importer's `_import_plan_list`: process every record, counting only
the imported ones. -/
def import_plan_list (db : DB) : List JsonPlanEntry → DB × Nat
  | [] => (db, 0)
  | e :: rest =>
    let p := processJsonPlanEntry db e
    let q := import_plan_list p.1 rest
    (q.1, (if p.2 then 1 else 0) + q.2)

/-- One item of the `{year, items: {code: {...}}}` JSON tree. -/
structure JsonYearItem where
  name : Option String := none
  map_attribute : Option String := none
  capex_opex : Option String := none
  asset_type : Option String := none
  plan : List (String × Rat) := []
deriving DecidableEq, Repr

/-- Month loop of `_import_year_month_structure` for one item: each
`month_str -> amount` pair becomes one committed `PlanEntry`; a month
string that `int()` rejects raises and aborts the whole import (there is no
per-record `try/except` on this path), leaving the rows committed so far. -/
def importTreePlans (scenId : Nat) (y : Int) (itemId : Nat) :
    DB → Nat → List (String × Rat) → Except DB (DB × Nat)
  | db, n, [] => Except.ok (db, n)
  | db, n, (ms, amt) :: rest =>
    match pythonInt ms with
    | none => Except.error db
    | some m =>
      importTreePlans scenId y itemId
        { db with plans := db.plans ++ [{
            year := y
            month := m
            amount := amt
            scenario_id := scenId
            budget_item_id := itemId }] }
        (n + 1) rest

/-- Item loop of `_import_year_month_structure`: resolve each budget item
(a missing name raises and aborts, leaving earlier commits in place) and
expand its plan months. -/
def importTreeItems (scenId : Nat) (y : Int) :
    DB → Nat → List (String × JsonYearItem) → Except DB (DB × Nat)
  | db, n, [] => Except.ok (db, n)
  | db, n, (code, it) :: rest =>
    match ensure_budget_item db code it.name (normalize_optional_str it.map_attribute)
        (normalize_capex_opex it.capex_opex) (normalize_optional_str it.asset_type) with
    | Except.error _ => Except.error db
    | Except.ok (item, db1) =>
      match importTreePlans scenId y item.id db1 n it.plan with
      | Except.error db2 => Except.error db2
      | Except.ok (db2, n2) => importTreeItems scenId y db2 n2 rest

/-- The importer's `_import_year_month_structure`: resolve the year and the
(single) scenario, then walk the item tree.  `Except.error` models the
uncaught exception that aborts `import_json`, carrying the store with every
row committed before the failure. -/
def import_year_month_structure (db : DB) (year : Option Int)
    (scenario : Option String) (items : List (String × JsonYearItem)) :
    Except DB (DB × Nat) :=
  match year with
  | none => Except.error db
  | some y =>
    let p := get_or_create_scenario db scenario y
    importTreeItems p.1.id y p.2 0 items

/-- The three JSON payload shapes `import_json` recognizes. -/
inductive JsonPayload where
  | plansKey (l : List JsonPlanEntry)
  | bareList (l : List JsonPlanEntry)
  | tree (year : Option Int) (scenario : Option String) (items : List (String × JsonYearItem))
deriving Repr

/-- The importer's `import_json`: dispatch on the payload shape.  Note that
no branch ever increments `skipped_rows`, and only the list branches run a
per-record `try/except`. -/
def import_json (db : DB) (p : JsonPayload) : Except DB (DB × ImportSummary) :=
  match p with
  | JsonPayload.plansKey l =>
    let q := import_plan_list db l
    Except.ok (q.1, { imported_plans := q.2, message := some "JSON import completed" })
  | JsonPayload.bareList l =>
    let q := import_plan_list db l
    Except.ok (q.1, { imported_plans := q.2, message := some "JSON import completed" })
  | JsonPayload.tree y s items =>
    match import_year_month_structure db y s items with
    | Except.error db1 => Except.error db1
    | Except.ok (db1, n) =>
      Except.ok (db1, { imported_plans := n, message := some "JSON import completed" })

/-- Per-character model of `unicodedata.normalize("NFKD", ·)` followed by
`encode("ascii", "ignore")`: ASCII characters pass through, accented Latin
and Turkish letters lose their diacritic (dotless `ı` has no decomposition
and is dropped), every other non-ASCII character is dropped. -/
def asciiFold (c : Char) : List Char :=
  if c.toNat < 128 then [c]
  else
    match c with
    | 'ç' => ['c'] | 'Ç' => ['C'] | 'ğ' => ['g'] | 'Ğ' => ['G']
    | 'ş' => ['s'] | 'Ş' => ['S'] | 'ö' => ['o'] | 'Ö' => ['O']
    | 'ü' => ['u'] | 'Ü' => ['U'] | 'İ' => ['I']
    | 'é' => ['e'] | 'è' => ['e'] | 'á' => ['a'] | 'à' => ['a'] | 'â' => ['a']
    | 'î' => ['i'] | 'û' => ['u'] | 'ô' => ['o']
    | _ => []

/-- Characters the normalized code keeps verbatim: `[A-Z0-9]`. -/
def isCodeChar (c : Char) : Bool :=
  ('A' ≤ c ∧ c ≤ 'Z') ∨ ('0' ≤ c ∧ c ≤ '9')

/-- Model of `re.sub(r"[^A-Z0-9]+", "_", ·)`: every maximal run of
non-code characters becomes a single underscore. -/
def collapseRuns : List Char → List Char
  | [] => []
  | c :: rest =>
    let tail := collapseRuns rest
    if isCodeChar c then c :: tail
    else
      match tail with
      | '_' :: _ => tail
      | _ => '_' :: tail

/-- Python `str.strip("_")` on a character list. -/
def stripUnderscores (l : List Char) : List Char :=
  ((l.dropWhile (fun c => c = '_')).reverse.dropWhile (fun c => c = '_')).reverse

/-- The importer's `_normalize_code`: NFKD-fold to ASCII, strip, upper-case,
collapse non-alphanumeric runs to underscores, strip underscores, fall back
to `"ITEM"` when nothing is left, and cap at 64 characters. -/
def normalize_code (value : String) : String :=
  let ascii := value.data.flatMap asciiFold
  let t := (stripWsL ascii).map upperChar
  let collapsed := collapseRuns t
  let stripped := stripUnderscores collapsed
  let final := if stripped = [] then "ITEM".data else stripped
  String.mk (final.take 64)

/-- The importer's `MONTH_ALIASES` dict, in insertion order (the month
search iterates it in this order). -/
def month_aliases : List (String × Int) :=
  [("jan", 1), ("feb", 2), ("mart", 3), ("apr", 4), ("may", 5), ("jun", 6),
   ("jul", 7), ("aug", 8), ("sep", 9), ("sept", 9), ("oct", 10), ("nov", 11),
   ("dec", 12), ("oca", 1), ("şub", 2), ("sub", 2), ("nis", 4), ("mayıs", 5),
   ("mayis", 5), ("haz", 6), ("tem", 7), ("ağu", 8), ("agu", 8), ("eyl", 9),
   ("eki", 10), ("kas", 11), ("ara", 12)]

/-- The importer's `EXPENSE_COLUMN_KEYWORDS`. -/
def expense_column_keywords : List String :=
  ["actual", "expense", "spend", "spent", "harcama", "gerçekleşen"]

/-- Replace every non-overlapping occurrence of `pat` (non-empty) by
`repl`, left to right — Python `str.replace`.  Fuel-based recursion; the
initial fuel is the input length, enough since every step consumes at
least one character. -/
def replaceAllAux (pat repl : List Char) : Nat → List Char → List Char
  | 0, l => l
  | _, [] => []
  | fuel + 1, c :: rest =>
    if pat.isPrefixOf (c :: rest) then
      repl ++ replaceAllAux pat repl fuel (rest.drop (pat.length - 1))
    else c :: replaceAllAux pat repl fuel rest

/-- Python `str.replace pat repl` on character lists. -/
def replaceAll (l pat repl : List Char) : List Char :=
  replaceAllAux pat repl l.length l

/-- Model of `re.sub(r"\s+", " ", ·)`: every maximal whitespace run
becomes one space. -/
def collapseWsRuns : List Char → List Char
  | [] => []
  | c :: rest =>
    let tail := collapseWsRuns rest
    if ¬ isPyWs c then c :: tail
    else
      match tail with
      | ' ' :: _ => tail
      | _ => ' ' :: tail

/-- First decimal year number found scanning left to right, trying the
regex alternatives `20\d{2}`, `19\d{2}`, `\d{2}` in order at each
position (Python `re.search(r"(20\d{2}|19\d{2}|\d{2})", ·)`). -/
def yearAt (l : List Char) : Option Nat :=
  (match l with
   | '2' :: '0' :: a :: b :: _ =>
     if a.isDigit ∧ b.isDigit then some (digitsVal ['2', '0', a, b]) else none
   | _ => none).orElse (fun _ =>
  (match l with
   | '1' :: '9' :: a :: b :: _ =>
     if a.isDigit ∧ b.isDigit then some (digitsVal ['1', '9', a, b]) else none
   | _ => none).orElse (fun _ =>
  match l with
  | a :: b :: _ => if a.isDigit ∧ b.isDigit then some (digitsVal [a, b]) else none
  | _ => none))

/-- Scan for the leftmost year match. -/
def yearScan : List Char → Option Nat
  | [] => none
  | c :: rest => (yearAt (c :: rest)).orElse (fun _ => yearScan rest)

/-- The importer's `_parse_month_header`: strip/lower, bail out on
total columns, blank the plan/actual qualifier words, collapse whitespace,
then find a month alias substring and a 2- or 4-digit year (2-digit years
below 70 map to 20xx, the rest to 19xx). -/
def parse_month_header (header : String) : Option (Int × Int) :=
  let normalized := stripWsL (header.data.map lowerChar)
  if normalized.isEmpty ∨ containsSub normalized "total".data
      ∨ containsSub normalized "genel toplam".data then none
  else
    let n1 := ["plan", "budget", "gerçekleşen", "actual", "expense", "harcama"].foldl
      (fun acc w => replaceAll acc w.data [' ']) normalized
    let n2 := collapseWsRuns n1
    match month_aliases.find? (fun p => containsSub n2 p.1.data) with
    | none => none
    | some al =>
      match yearScan n2 with
      | none => none
      | some rawYear =>
        let y : Int :=
          if rawYear < 100 then
            (if rawYear < 70 then (rawYear : Int) + 2000 else (rawYear : Int) + 1900)
          else (rawYear : Int)
        some (al.2, y)

/-- The importer's `_find_header_index`: first an exact (lower-cased)
match scanning the candidates in order, then the first header containing
any candidate as a substring. -/
def find_header_index (headers : List String) (candidates : List String) : Option Nat :=
  let lowered := headers.map (fun h => h.data.map lowerChar)
  match candidates.findSome? (fun c => lowered.findIdx? (fun h => h = c.data.map lowerChar)) with
  | some i => some i
  | none =>
    match lowered.findIdx? (fun h => candidates.any (fun c => containsSub h (c.data.map lowerChar))) with
    | some i => some i
    | none => none

/-- One spreadsheet cell as seen by `openpyxl` with `values_only=True`:
empty, text, or numeric. -/
inductive Cell where
  | empty
  | str (s : String)
  | num (q : Rat)
deriving DecidableEq, Repr

/-- Python `str(cell)` for the non-empty cells the pivot importer
stringifies (numeric cells only carry integers in the modelled flows). -/
def cellStr : Cell → String
  | Cell.empty => "None"
  | Cell.str s => s
  | Cell.num q => if q.den = 1 then toString q.num else toString q.num ++ "/" ++ toString q.den

/-- Python `cell not in (None, "")`. -/
def cellPresent : Cell → Bool
  | Cell.empty => false
  | Cell.str s => s ≠ ""
  | Cell.num _ => true

/-- Python `amount not in (None, "", 0)`. -/
def cellNonZero : Cell → Bool
  | Cell.empty => false
  | Cell.str s => s ≠ ""
  | Cell.num q => q ≠ 0

/-- Python `float(cell)` on a non-empty cell. -/
def cellFloat : Cell → Option Rat
  | Cell.empty => none
  | Cell.str s => pythonFloat s
  | Cell.num q => some q

/-- `_normalize_optional_str(row[i])` on a cell. -/
def cellOptStr : Cell → Option String
  | Cell.empty => none
  | c => normalize_optional_str (some (cellStr c))

/-- Processing of one data row by `_import_pivot_style_rows` (the month
columns, the resolved header indexes and the store/count accumulator are
threaded in).  `_ensure_budget_item` cannot fail on this path because the
row name is non-empty. -/
def pivotRow (month_columns : List (Nat × Int × Int))
    (name_index : Nat) (code_index map_index scenario_index type_index capex_index asset_index : Option Nat)
    (acc : DB × Nat) (row : List Cell) : DB × Nat :=
  if row.isEmpty ∨ row.length ≤ name_index then acc
  else
    match row.getD name_index Cell.empty with
    | Cell.empty => acc
    | raw_name =>
      let name := stripWs (cellStr raw_name)
      if name = "" then acc
      else if containsSub (name.data.map lowerChar) "total".data
          ∨ containsSub (name.data.map lowerChar) "genel toplam".data then acc
      else
        let cellAt : Option Nat → Option Cell := fun idx =>
          match idx with
          | some i => if i < row.length then some (row.getD i Cell.empty) else none
          | none => none
        let map_attribute_value :=
          match cellAt map_index with
          | some c => cellOptStr c
          | none => none
        let capex_opex_value :=
          match cellAt capex_index with
          | some c =>
            match c with
            | Cell.empty => none
            | c => normalize_capex_opex (some (cellStr c))
          | none => none
        let asset_type_value :=
          match cellAt asset_index with
          | some c => cellOptStr c
          | none => none
        let code_value : Option String :=
          match cellAt code_index with
          | some c => if cellPresent c then
              (let t := stripWs (cellStr c); if t = "" then none else some t)
            else none
          | none => none
        let budget_code := normalize_code
          (code_value.getD (map_attribute_value.getD name))
        let scenario_value : Option String :=
          match cellAt scenario_index with
          | some c => if cellPresent c then some (stripWs (cellStr c)) else none
          | none => none
        let entry_type_value :=
          match cellAt type_index with
          | some c => if cellPresent c then lowerStr (stripWs (cellStr c)) else "plan"
          | none => "plan"
        if entry_type_value ≠ "plan" ∧ entry_type_value ≠ "planlama" ∧ entry_type_value ≠ "budget" then acc
        else
          match ensure_budget_item acc.1 budget_code (some name) map_attribute_value capex_opex_value asset_type_value with
          | Except.error _ => acc
          | Except.ok (item, db1) =>
            month_columns.foldl
              (fun a mc =>
                let (index, month, year) := mc
                if row.length ≤ index then a
                else
                  let amount := row.getD index Cell.empty
                  if ¬ cellNonZero amount then a
                  else
                    match cellFloat amount with
                    | none => a
                    | some amount_value =>
                      let p := get_or_create_scenario a.1 scenario_value year
                      ({ p.2 with plans := p.2.plans ++ [{
                          year := year
                          month := month
                          amount := amount_value
                          scenario_id := p.1.id
                          budget_item_id := item.id }] },
                       a.2 + 1))
              (db1, acc.2)

/-- The importer's `_import_pivot_style_rows`: applicability detection
(`Row Labels` header plus at least one parsable, non-expense month column)
followed by the per-row ingestion; `none` models `return False` (the
caller falls back to the row-oriented parser). -/
def import_pivot_style_rows (data_rows : List (List Cell)) (headers_raw : List String)
    (db : DB) : Option (DB × Nat) :=
  let normalized_headers := headers_raw.map (fun h => h.data.map lowerChar)
  if ¬ normalized_headers.any (fun h =>
      containsSub h "row labels".data ∨ containsSub h "row label".data) then none
  else
    let month_columns : List (Nat × Int × Int) :=
      headers_raw.enum.filterMap (fun p =>
        match parse_month_header p.2 with
        | none => none
        | some my =>
          if expense_column_keywords.any
              (fun kw => containsSub (p.2.data.map lowerChar) kw.data) then none
          else some (p.1, my.1, my.2))
    if month_columns.isEmpty then none
    else
      match find_header_index headers_raw ["row labels", "row label", "kalem"] with
      | none => none
      | some name_index =>
        let code_index := find_header_index headers_raw ["budget_code", "budget code", "kod", "code"]
        let map_index := find_header_index headers_raw ["map attribute", "map_attribute", "map nitelik", "map"]
        let scenario_index := find_header_index headers_raw ["scenario", "senaryo", "bench"]
        let type_index := find_header_index headers_raw ["type", "tip", "type export"]
        let capex_index := find_header_index headers_raw
          ["capex_opex", "capex opex", "capex-opex", "capex/opex", "capexopex"]
        let asset_index := find_header_index headers_raw
          ["asset_type", "asset type", "varlık tipi", "varlik tipi", "varlik_tipi"]
        some (data_rows.foldl
          (pivotRow month_columns name_index code_index map_index scenario_index
            type_index capex_index asset_index)
          (db, 0))

/-- Derived monthly planned/actual pair (`app/services/analytics.py`,
`MonthlyAggregate`). -/
structure MonthlyAggregate where
  month : Int
  planned : Rat
  actual : Rat
deriving DecidableEq, Repr

/-- Computed, never stored: `saving = planned - actual`. -/
def MonthlyAggregate.saving (a : MonthlyAggregate) : Rat :=
  a.planned - a.actual

/-- Plan-side scope filter of `compute_monthly_summary` (year plus the
optional scenario and budget-item filters). -/
def planInScope (p : PlanEntry) (year : Int) (scenario_id budget_item_id : Option Nat) : Bool :=
  (p.year = year : Bool)
    && (match scenario_id with | some s => (p.scenario_id = s : Bool) | none => true)
    && (match budget_item_id with | some b => (p.budget_item_id = b : Bool) | none => true)

/-- Expense-side scope filter of `compute_monthly_summary`: recorded,
in-budget expenses dated in the year, plus the optional filters. -/
def expenseInScope (e : Expense) (year : Int) (scenario_id budget_item_id : Option Nat) : Bool :=
  (e.expense_date.year = year : Bool)
    && (e.status = ExpenseStatus.recorded : Bool)
    && (e.is_out_of_budget = false : Bool)
    && (match scenario_id with | some s => (e.scenario_id = some s : Bool) | none => true)
    && (match budget_item_id with | some b => (e.budget_item_id = b : Bool) | none => true)

/-- The analytics module's `compute_monthly_summary`: group the in-scope
plan amounts and expense amounts by month (an SQL `GROUP BY` is the sum
over the matching rows), then emit one aggregate per month of
`sorted({month} if month else plan-months | expense-months | 1..12)`. -/
def compute_monthly_summary (db : DB) (year : Int)
    (scenario_id budget_item_id : Option Nat) (month : Option Int) :
    List MonthlyAggregate :=
  let planFilt := db.plans.filter (fun p =>
    planInScope p year scenario_id budget_item_id
      && (match month with | some m => (p.month = m : Bool) | none => true))
  let expFilt := db.expenses.filter (fun e =>
    expenseInScope e year scenario_id budget_item_id
      && (match month with | some m => (e.expense_date.month = m : Bool) | none => true))
  let plannedAt : Int → Rat := fun m =>
    ((planFilt.filter (fun p => p.month = m)).map (fun p => p.amount)).sum
  let actualAt : Int → Rat := fun m =>
    ((expFilt.filter (fun e => e.expense_date.month = m)).map (fun e => e.amount)).sum
  let months : List Int :=
    match month with
    | some m => [m]
    | none =>
      List.insertionSort (· ≤ ·)
        ((planFilt.map (fun p => p.month) ++ expFilt.map (fun e => e.expense_date.month)
          ++ (List.range 12).map (fun (i : Nat) => (i : Int) + 1)).dedup)
  months.map (fun m => { month := m, planned := plannedAt m, actual := actualAt m })

/-- The resequencer's target code for 1-based position `index`:
`f"SK{index:02d}"`. -/
def skCode (index : Nat) : String :=
  "SK" ++ (if index < 10 then "0" ++ Nat.repr index else Nat.repr index)

/-- The resequencer's temporary phase-one code:
`f"TMP-{item.id}-{item.code}"`. -/
def tmpCode (it : BudgetItem) : String :=
  "TMP-" ++ Nat.repr it.id ++ "-" ++ it.code

/-- Ordering used by `_resequence_budget_codes`'s query:
`ORDER BY created_at, id` (lexicographic). -/
def itemLe (a b : BudgetItem) : Prop :=
  a.created_at < b.created_at ∨ (a.created_at = b.created_at ∧ a.id ≤ b.id)

instance : DecidableRel itemLe := fun a b => by
  unfold itemLe
  exact inferInstance

instance : IsTotal BudgetItem itemLe :=
  ⟨fun a b => by unfold itemLe; omega⟩

instance : IsTrans BudgetItem itemLe :=
  ⟨fun a b c => by unfold itemLe; omega⟩

/-- Budget items in creation order, as read by the resequencer. -/
def sortedItems (items : List BudgetItem) : List BudgetItem :=
  List.insertionSort itemLe items

/-- The `(item, expected_code)` assignments, positions starting at 1
(`enumerate(items, start=1)`). -/
def assignmentsOf (items : List BudgetItem) : List (BudgetItem × String) :=
  (sortedItems items).enum.map (fun p => (p.2, skCode (p.1 + 1)))

/-- The `pending_updates` list: assignments whose item does not already
carry its expected code. -/
def pendingOf (items : List BudgetItem) : List (BudgetItem × String) :=
  (assignmentsOf items).filter (fun p => p.1.code ≠ p.2)

/-- In-place update of the item with the given id to a new code (the ORM
mutation `item.code = ...`). -/
def setCode (items : List BudgetItem) (targetId : Nat) (c : String) : List BudgetItem :=
  items.map (fun j => if j.id = targetId then { j with code := c } else j)

/-- Phase one of the two-phase rename: give one pending item its
temporary unique code (derived from its id and pre-rename code). -/
def phase1Step (acc : List BudgetItem) (p : BudgetItem × String) : List BudgetItem :=
  setCode acc p.1.id (tmpCode p.1)

/-- Phase two: give one pending item its final `SKxx` code. -/
def phase2Step (acc : List BudgetItem) (p : BudgetItem × String) : List BudgetItem :=
  setCode acc p.1.id p.2

/-- The cleanup module's `_resequence_budget_codes` on the budget-item
table: compute the pending renames, stop if there are none, otherwise
apply the temporary codes and then the final codes, returning the number
of renamed items.  (The `updated_at` touch is not modelled; nothing reads
it.) -/
def resequence_budget_codes (items : List BudgetItem) : List BudgetItem × Nat :=
  let pending := pendingOf items
  if pending.isEmpty then (items, 0)
  else
    let afterTemp := pending.foldl phase1Step items
    (pending.foldl phase2Step afterTemp, pending.length)

/-- Every intermediate table state the two-phase rename passes through,
one state per single-item code assignment (including the initial and
final states). -/
def statesDuring (items : List BudgetItem) : List (List BudgetItem) :=
  let pending := pendingOf items
  let afterTemp := pending.foldl phase1Step items
  (pending.scanl phase1Step items).concat afterTemp
    ++ pending.scanl phase2Step afterTemp

/-- Net effect of a run of single-item code assignments drawn from `ps`
(each assignment `q` writes `g q` into the item whose id is `q.1.id`):
the item keeps its code unless a matching assignment rewrites it. -/
def applyUpd (g : BudgetItem × String → String) (ps : List (BudgetItem × String))
    (j : BudgetItem) : BudgetItem :=
  match ps.find? (fun q => q.1.id = j.id) with
  | some q => { j with code := g q }
  | none => j

/-- Numeric value carried by an `SKxx` code (the digits after the
two-character tag). -/
def skVal (s : String) : Nat :=
  digitsVal (s.data.drop 2)

/-- Character test used to delimit the id digits of a temporary code. -/
def nonDash (c : Char) : Bool :=
  c ≠ '-'

/-- Numeric id carried by a `TMP-{id}-{code}` temporary code (the digits
between the tag and the second dash). -/
def tmpIdVal (s : String) : Nat :=
  digitsVal ((s.data.drop 4).takeWhile nonDash)

/-- The purchase-reminders router's effective plan budget code:
`coalesce(nullif(trim(PlanEntry.budget_code), ''), BudgetItem.code)`. -/
def planBudgetCode (p : PlanEntry) (item : BudgetItem) : String :=
  match p.budget_code with
  | some s => let t := stripWs s; if t ≠ "" then t else item.code
  | none => item.code

/-- One row of the purchase-reminder listing response. -/
structure PurchaseReminderRow where
  budget_item_id : Nat
  budget_code : String
  budget_name : String
  year : Int
  month : Int
  scenario_id : Nat
  department : Option String
  is_form_prepared : Bool
deriving DecidableEq, Repr

/-- The router's `NOT EXISTS` subquery: a recorded expense for the item
dated in the given year and month (scenario-filtered when requested). -/
def hasRecordedExpense (db : DB) (itemId : Nat) (year month : Int)
    (scenario_id : Option Nat) : Bool :=
  db.expenses.any (fun e =>
    (e.budget_item_id = itemId : Bool)
      && (e.expense_date.year = year : Bool) && (e.expense_date.month = month : Bool)
      && (e.status = ExpenseStatus.recorded : Bool)
      && (match scenario_id with | some s => (e.scenario_id = some s : Bool) | none => true))

/-- The join key between a qualifying plan row and a purchase-form status
row. -/
def statusMatchesPlan (st : PurchaseFormStatusExt) (p : PlanEntry) (pcode : String) : Bool :=
  (st.budget_code = pcode : Bool) && (st.year = p.year : Bool) && (st.month = p.month : Bool)
    && (st.scenario_id = p.scenario_id : Bool) && (st.department = p.department.getD "" : Bool)

/-- The purchase-reminders response row for one qualifying plan row. -/
def mkReminder (p : PlanEntry) (item : BudgetItem) (pcode : String) (b : Bool) :
    PurchaseReminderRow :=
  { budget_item_id := p.budget_item_id
    budget_code := pcode
    budget_name := item.name
    year := p.year
    month := p.month
    scenario_id := p.scenario_id
    department := p.department
    is_form_prepared := b }

/-- The status subquery of the purchase-reminders listing: the stored
purchase-form rows of the requested year/month, filtered by scenario and
department when given. -/
def reminderStatusRows (db : DB) (year month : Int) (sid : Option Nat)
    (dept : Option String) : List PurchaseFormStatusExt :=
  db.statuses.filter (fun st =>
    (st.year = year : Bool) && (st.month = month : Bool)
      && (match sid with | some s => (st.scenario_id = s : Bool) | none => true)
      && (match dept with | some d => (st.department = d : Bool) | none => true))

/-- The qualifying-plan condition of the listing: requested year and
month, positive amount, the optional scenario and department filters, and
no matching recorded expense. -/
def reminderCond (db : DB) (year month : Int) (sid : Option Nat)
    (dept : Option String) (p : PlanEntry) : Bool :=
  (p.year = year : Bool) && (p.month = month : Bool) && (0 < p.amount : Bool)
    && (match sid with | some s => (p.scenario_id = s : Bool) | none => true)
    && (match dept with | some d => (p.department = some d : Bool) | none => true)
    && ! hasRecordedExpense db p.budget_item_id year month sid

/-- The rows one plan row contributes to the listing: inner join to its
budget item, the qualifying condition, then the left join to the filtered
status rows with `coalesce(is_form_prepared, False)`. -/
def reminderRowsFor (db : DB) (year month : Int) (sid : Option Nat)
    (dept : Option String) (p : PlanEntry) : List PurchaseReminderRow :=
  match db.items.find? (fun it => it.id = p.budget_item_id) with
  | none => []
  | some item =>
    if reminderCond db year month sid dept p then
      let pcode := planBudgetCode p item
      match (reminderStatusRows db year month sid dept).filter
          (fun st => statusMatchesPlan st p pcode) with
      | [] => [mkReminder p item pcode false]
      | l => l.map (fun st => mkReminder p item pcode st.is_form_prepared)
    else []

/-- The purchase-reminders listing (`app/routers/purchase_reminders.py`,
`list_purchase_reminders`): plans of the requested year/month with positive
amount (inner-joined to their budget item, filtered by scenario and
department when given), without a matching recorded expense, left-joined to
the filtered purchase-form status rows, then `DISTINCT`. -/
def list_purchase_reminders (db : DB) (year month : Int)
    (scenario_id : Option Nat) (department : Option String) :
    List PurchaseReminderRow :=
  (db.plans.flatMap (reminderRowsFor db year month scenario_id department)).dedup

/-- A non-matching element survives `dropWhile`. -/
theorem mem_dropWhile_of_neg {p : Char → Bool} {a : Char} (ha : p a = false) :
    ∀ {l : List Char}, a ∈ l → a ∈ l.dropWhile p := by
  intro l
  induction l with
  | nil => intro h; cases h
  | cons c t ih =>
    intro h
    rw [List.dropWhile_cons]
    by_cases hc : p c = true
    · simp only [hc, if_true]
      rcases List.mem_cons.mp h with rfl | ht
      · rw [ha] at hc; cases hc
      · exact ih ht
    · simp only [hc, if_false]
      exact h

/-- A non-whitespace character survives Python `strip`. -/
theorem mem_stripWsL_of_mem {a : Char} (ha : isPyWs a = false) {l : List Char}
    (h : a ∈ l) : a ∈ stripWsL l := by
  unfold stripWsL
  rw [List.mem_reverse]
  exact mem_dropWhile_of_neg ha (List.mem_reverse.mpr (mem_dropWhile_of_neg ha h))

/-- An element of a list splits it around `takeWhile`/`dropWhile`: if it is
not in the take-part it is in the drop-part. -/
theorem mem_dropWhile_of_not_pred {p : Char → Bool} {a : Char} (ha : p a = false)
    {l : List Char} (h : a ∈ l) : a ∈ l.dropWhile p := mem_dropWhile_of_neg ha h

/-- A comma makes the exponent digit run fail. -/
theorem parseExpDigits_comma {l : List Char} (h : ',' ∈ l) (sgn : Int) :
    parseExpDigits l sgn = none := by
  unfold parseExpDigits
  have hrest : ',' ∈ l.dropWhile Char.isDigit :=
    mem_dropWhile_of_neg (by decide) h
  have : l.dropWhile Char.isDigit ≠ [] := by
    intro he; rw [he] at hrest; cases hrest
  rw [if_pos (Or.inr this)]

/-- A comma anywhere in the exponent tail makes it fail. -/
theorem parseExpTail_comma {l : List Char} (h : ',' ∈ l) :
    parseExpTail l = none := by
  unfold parseExpTail
  split
  · next r =>
    have : ',' ∈ r := by
      rcases List.mem_cons.mp h with h1 | h1
      · cases h1
      · exact h1
    exact parseExpDigits_comma this 1
  · next r =>
    have : ',' ∈ r := by
      rcases List.mem_cons.mp h with h1 | h1
      · cases h1
      · exact h1
    exact parseExpDigits_comma this (-1)
  · next r _ _ => exact parseExpDigits_comma h 1

/-- A comma anywhere in the unsigned body makes Python float parsing fail:
no production of the accepted grammar contains a comma. -/
theorem pythonFloatCore_comma {l : List Char} (h : ',' ∈ l) :
    pythonFloatCore l = none := by
  unfold pythonFloatCore
  have hsplit := List.takeWhile_append_dropWhile Char.isDigit l
  have hdrop : ',' ∈ l.dropWhile Char.isDigit := mem_dropWhile_of_neg (by decide) h
  dsimp only
  split
  · next he =>
    rw [he] at hdrop; cases hdrop
  · next r2 he =>
    rw [he] at hdrop
    have h2 : ',' ∈ r2 := by
      rcases List.mem_cons.mp hdrop with h1 | h1
      · cases h1
      · exact h1
    have h3 : ',' ∈ r2.dropWhile Char.isDigit := mem_dropWhile_of_neg (by decide) h2
    split
    · rfl
    · split
      · next he3 =>
        rw [he3] at h3; cases h3
      · next r4 he3 =>
        rw [he3] at h3
        have h4 : ',' ∈ r4 := by
          rcases List.mem_cons.mp h3 with h1 | h1
          · cases h1
          · exact h1
        rw [parseExpTail_comma h4]; rfl
      · next r4 he3 =>
        rw [he3] at h3
        have h4 : ',' ∈ r4 := by
          rcases List.mem_cons.mp h3 with h1 | h1
          · cases h1
          · exact h1
        rw [parseExpTail_comma h4]; rfl
      · rfl
  · next r2 he =>
    rw [he] at hdrop
    have h2 : ',' ∈ r2 := by
      rcases List.mem_cons.mp hdrop with h1 | h1
      · cases h1
      · exact h1
    split
    · rfl
    · rw [parseExpTail_comma h2]; rfl
  · next r2 he =>
    rw [he] at hdrop
    have h2 : ',' ∈ r2 := by
      rcases List.mem_cons.mp hdrop with h1 | h1
      · cases h1
      · exact h1
    split
    · rfl
    · rw [parseExpTail_comma h2]; rfl
  · rfl

/-- A comma anywhere in the string makes Python `float(s)` fail. -/
theorem pythonFloat_comma {s : String} (h : ',' ∈ s.data) :
    pythonFloat s = none := by
  unfold pythonFloat
  have hs : ',' ∈ stripWsL s.data := mem_stripWsL_of_mem (by decide) h
  split
  · next r he =>
    rw [he] at hs
    have h2 : ',' ∈ r := by
      rcases List.mem_cons.mp hs with h1 | h1
      · cases h1
      · exact h1
    exact pythonFloatCore_comma h2
  · next r he =>
    rw [he] at hs
    have h2 : ',' ∈ r := by
      rcases List.mem_cons.mp hs with h1 | h1
      · cases h1
      · exact h1
    rw [pythonFloatCore_comma h2]; rfl
  · exact pythonFloatCore_comma hs

/-- A CSV plan row whose fields are all well-formed except that the amount
text contains a comma. -/
def commaAmountRow : CsvRow :=
  [("type", "plan"), ("budget_code", "SK1"), ("budget_name", "X"),
   ("year", "2024"), ("month", "1"), ("amount", "1.234,56")]

/-- C2, counterexample.  The numeric coercer is plain Python `float`: it has
no locale handling, so neither `"1.234,56"` nor `"1,234.56"` coerces to
`1234.56` — both raise `ValueError` (modelled as `none`). -/
theorem coerce_float_locale_counterexample :
    pythonFloat "1.234,56" ≠ some ((123456 : Rat) / 100)
    ∧ pythonFloat "1,234.56" ≠ some ((123456 : Rat) / 100)
    ∧ pythonFloat "1.234,56" = none
    ∧ pythonFloat "1,234.56" = none := by
  refine ⟨?_, ?_, ?_, ?_⟩
  · intro h
    rw [pythonFloat_comma (by decide)] at h
    cases h
  · intro h
    rw [pythonFloat_comma (by decide)] at h
    cases h
  · decide
  · decide

/-- C2 (amended).  String amounts are coerced with plain `float(text)`:
any string containing a comma fails to coerce (so a CSV row with such an
amount is skipped, creating nothing), `"1.234,56"` and `"1,234.56"` both
fail, and a plain decimal-point string such as `"1234.56"` coerces to
`1234.56`. -/
theorem coerce_float_plain_decimal :
    (∀ s : String, ',' ∈ s.data → pythonFloat s = none)
    ∧ pythonFloat "1.234,56" = none
    ∧ pythonFloat "1,234.56" = none
    ∧ pythonFloat "1234.56" = some ((123456 : Rat) / 100)
    ∧ (import_csv {} [commaAmountRow]).2.skipped_rows = 1
    ∧ (import_csv {} [commaAmountRow]).1.plans = []
    ∧ (import_csv {} [commaAmountRow]).1.expenses = [] := by
  refine ⟨fun s h => pythonFloat_comma h, by decide, by decide, ?_, by decide, by decide, by decide⟩
  have h : pythonFloat "1234.56" = some (((1234 : Nat) : Rat) + ((56 : Nat) : Rat) / 10 ^ 2) := by
    rfl
  rw [h]
  norm_num

/-- C2, witness: the comma-rejection clause applied at `"1,5"`. -/
theorem coerce_float_plain_decimal_witness :
    pythonFloat "1,5" = none :=
  coerce_float_plain_decimal.1 "1,5" (by decide)

/-- `_ensure_budget_item` only ever touches the budget-item table (and the
id/clock counters): plans, expenses, scenarios and statuses are untouched
on every success path. -/
theorem ensure_budget_item_tables {db : DB} {code : String}
    {name m k a : Option String} {it : BudgetItem} {db' : DB}
    (h : ensure_budget_item db code name m k a = Except.ok (it, db')) :
    db'.plans = db.plans ∧ db'.expenses = db.expenses
      ∧ db'.scenarios = db.scenarios ∧ db'.statuses = db.statuses := by
  unfold ensure_budget_item at h
  split at h
  · cases h
    exact ⟨rfl, rfl, rfl, rfl⟩
  · split at h
    · cases h
    · cases h
      exact ⟨rfl, rfl, rfl, rfl⟩

/-- With a truthy name, `_ensure_budget_item` never raises. -/
theorem ensure_budget_item_ok_of_truthy (db : DB) (code : String)
    (name m k a : Option String) (hn : truthy name = true) :
    ∃ it db', ensure_budget_item db code name m k a = Except.ok (it, db') := by
  unfold ensure_budget_item
  split
  · exact ⟨_, _, rfl⟩
  · rw [if_neg (by simp [hn])]
    exact ⟨_, _, rfl⟩

/-- `_get_or_create_scenario` only ever touches the scenario table (and its
id counter). -/
theorem get_or_create_scenario_tables (db : DB) (n : Option String) (y : Int) :
    (get_or_create_scenario db n y).2.plans = db.plans
      ∧ (get_or_create_scenario db n y).2.expenses = db.expenses
      ∧ (get_or_create_scenario db n y).2.items = db.items
      ∧ (get_or_create_scenario db n y).2.statuses = db.statuses := by
  unfold get_or_create_scenario
  dsimp only
  split
  · split
    · exact ⟨rfl, rfl, rfl, rfl⟩
    · exact ⟨rfl, rfl, rfl, rfl⟩
  · split
    · exact ⟨rfl, rfl, rfl, rfl⟩
    · exact ⟨rfl, rfl, rfl, rfl⟩

/-- A well-formed CSV plan row whose amount text is the given string. -/
def negAmountRow (amountText : String) : CsvRow :=
  [("type", "plan"), ("budget_code", "SK1"), ("budget_name", "X"),
   ("year", "2024"), ("month", "1"), ("amount", amountText)]

/-- C5, counterexample.  A CSV plan row with `amount="-5"` is *not*
rejected: `skipped_rows` stays `0`, the row is counted as an imported plan,
and a `PlanEntry` is created for it (no negative-value validation exists
anywhere on the path). -/
theorem negative_amount_counterexample :
    (import_csv {} [negAmountRow "-5"]).2.skipped_rows = 0
    ∧ (import_csv {} [negAmountRow "-5"]).2.imported_plans = 1
    ∧ (import_csv {} [negAmountRow "-5"]).1.plans ≠ [] := by
  refine ⟨by decide, by decide, ?_⟩
  intro h
  have h2 := congrArg List.length h
  have h3 : (import_csv {} [negAmountRow "-5"]).1.plans.length = 1 := by decide
  rw [h3] at h2
  cases h2

/-- C5 (amended).  A CSV plan row whose amount parses as a negative float
is imported, from any store state: the outcome is a plan import, exactly
one `PlanEntry` carrying the negative amount is appended, and no expense
row is touched; concretely, importing the `amount="-5"` row yields
`imported_plans=1, skipped_rows=0` and a plan with amount `-5.0`. -/
theorem negative_amount_row_imported :
    (∀ (db : DB) (s : String) (q : Rat), pythonFloat s = some q → q < 0 →
      (processCsvRow db (negAmountRow s)).2 = RowOutcome.plan
      ∧ (∃ pl, (processCsvRow db (negAmountRow s)).1.plans = db.plans ++ [pl]
          ∧ pl.amount = q ∧ pl.year = 2024 ∧ pl.month = 1)
      ∧ (processCsvRow db (negAmountRow s)).1.expenses = db.expenses)
    ∧ (import_csv {} [negAmountRow "-5"]).2 =
        { imported_plans := 1, imported_expenses := 0, skipped_rows := 0,
          message := some "CSV import completed" }
    ∧ (∃ pl, (import_csv {} [negAmountRow "-5"]).1.plans = [pl] ∧ pl.amount = -5) := by
  refine ⟨?_, by decide, ?_⟩
  · intro db s q hq _
    obtain ⟨it, db1, he⟩ :=
      ensure_budget_item_ok_of_truthy db "SK1" (rowGet (negAmountRow s) "budget_name")
        (extract_map_attribute (negAmountRow s)) (extract_capex_opex (negAmountRow s))
        (extract_asset_type (negAmountRow s)) (by rfl)
    obtain ⟨hpl1, hex1, -, -⟩ := ensure_budget_item_tables he
    rcases hsc : get_or_create_scenario db1 (rowGet (negAmountRow s) "scenario") 2024
      with ⟨scen, db2⟩
    have htab := get_or_create_scenario_tables db1 (rowGet (negAmountRow s) "scenario") 2024
    rw [hsc] at htab
    dsimp only at htab
    obtain ⟨hpl2, hex2, -, -⟩ := htab
    have hrun : processCsvRow db (negAmountRow s) =
        ({ db2 with plans := db2.plans ++ [⟨2024, 1, q, scen.id, it.id, none, none⟩] },
         RowOutcome.plan) := by
      unfold processCsvRow
      rw [show rowGet (negAmountRow s) "type" = some "plan" from rfl]
      rw [show lowerStr ((some "plan").getD "plan") = "plan" from rfl]
      rw [if_pos rfl]
      rw [show rowGet (negAmountRow s) "budget_code" = some "SK1" from rfl]
      dsimp only
      rw [he]
      dsimp only
      rw [show (rowGet (negAmountRow s) "year").bind pythonInt = some 2024 from rfl]
      dsimp only
      rw [hsc]
      rw [show (rowGet (negAmountRow s) "month").bind pythonInt = some 1 from rfl]
      dsimp only
      rw [show (rowGet (negAmountRow s) "amount").bind pythonFloat = pythonFloat s from rfl, hq]
    rw [hrun]
    refine ⟨rfl, ⟨⟨2024, 1, q, scen.id, it.id, none, none⟩, ?_, rfl, rfl, rfl⟩, ?_⟩
    · dsimp only
      rw [hpl2, hpl1]
    · dsimp only
      rw [hex2, hex1]
  · exact ⟨⟨2024, 1, -((5 : Nat) : Rat), 0, 0, none, none⟩, by rfl, by norm_num⟩

/-- C5, witness: the amended theorem applied at the empty store and the
string `"-5"`. -/
theorem negative_amount_row_imported_witness :
    (processCsvRow {} (negAmountRow "-5")).2 = RowOutcome.plan :=
  (negative_amount_row_imported.1 {} "-5" (-((5 : Nat) : Rat)) (by rfl) (by norm_num)).1

/-- C6, counterexample.  With a scenario named `"Other"` already stored for
2024, resolving a record with no scenario name returns that scenario — not
a scenario named `"Default 2024"` — and creates nothing: the no-name branch
returns the *first* scenario of the year regardless of its name. -/
theorem default_scenario_counterexample :
    (get_or_create_scenario { scenarios := [⟨1, "Other", 2024⟩] } none 2024).1.name = "Other"
    ∧ (get_or_create_scenario { scenarios := [⟨1, "Other", 2024⟩] } none 2024).1.name
        ≠ "Default 2024"
    ∧ (get_or_create_scenario { scenarios := [⟨1, "Other", 2024⟩] } none 2024).2
        = { scenarios := [⟨1, "Other", 2024⟩] } := by
  refine ⟨by decide, by decide, by decide⟩

/-- Two plan CSV rows for the same budget code, year and month with no
scenario column, amounts 100 and 50. -/
def twoRowA : CsvRow :=
  [("budget_code", "X"), ("budget_name", "Xn"), ("year", "2024"),
   ("month", "1"), ("amount", "100")]

/-- Companion row with amount 50. -/
def twoRowB : CsvRow :=
  [("budget_code", "X"), ("budget_name", "Xn"), ("year", "2024"),
   ("month", "1"), ("amount", "50")]

/-- C6 (amended).  A record with no scenario name resolves to the first
stored scenario of its year, whatever that scenario's name; only when the
year has no scenario at all is a `"Default {year}"` scenario created (so no
duplicate `(name, year)` pair can arise from this branch).  Consequently,
from an empty store, two no-scenario plan rows for 2024 land in one single
`"Default 2024"` scenario and the month-1 aggregate reports `planned =
150`. -/
theorem default_scenario_resolution :
    (∀ (db : DB) (y : Int),
      (∃ s, db.scenarios.find? (fun z => z.year = y) = some s
          ∧ get_or_create_scenario db none y = (s, db))
      ∨ (db.scenarios.find? (fun z => z.year = y) = none
          ∧ (get_or_create_scenario db none y).1.name = "Default " ++ toString y
          ∧ (get_or_create_scenario db none y).1.year = y
          ∧ (get_or_create_scenario db none y).2.scenarios
              = db.scenarios ++ [(get_or_create_scenario db none y).1]
          ∧ ∀ z ∈ db.scenarios, z.year ≠ y))
    ∧ (import_csv {} [twoRowA, twoRowB]).1.scenarios.map (fun z => (z.name, z.year))
        = [("Default 2024", 2024)]
    ∧ (import_csv {} [twoRowA, twoRowB]).1.plans.map (fun p => p.scenario_id) = [0, 0]
    ∧ compute_monthly_summary (import_csv {} [twoRowA, twoRowB]).1 2024 none none (some 1)
        = [⟨1, 150, 0⟩] := by
  refine ⟨?_, by decide, by decide, ?_⟩
  · intro db y
    unfold get_or_create_scenario
    rw [show truthy none = false from rfl]
    simp only [Bool.false_eq_true, if_false]
    cases hf : db.scenarios.find? (fun z => z.year = y) with
    | some s => exact Or.inl ⟨s, rfl, rfl⟩
    | none =>
      refine Or.inr ⟨rfl, rfl, rfl, rfl, ?_⟩
      intro z hz
      have := List.find?_eq_none.mp hf z hz
      simpa using this
  · have h : compute_monthly_summary (import_csv {} [twoRowA, twoRowB]).1 2024 none none (some 1)
        = [⟨1, ((100 : Nat) : Rat) + (((50 : Nat) : Rat) + 0), 0⟩] := by rfl
    rw [h]
    have h2 : ((100 : Nat) : Rat) + (((50 : Nat) : Rat) + 0) = 150 := by norm_num
    rw [h2]

/-- C6, witness: the resolution clause applied at the empty store, where
no 2024 scenario exists, yielding the freshly created `"Default 2024"`. -/
theorem default_scenario_resolution_witness :
    (get_or_create_scenario {} none 2024).1.name = "Default " ++ toString (2024 : Int) := by
  rcases default_scenario_resolution.1 {} 2024 with ⟨s, hf, -⟩ | ⟨-, hname, -⟩
  · rw [List.find?_nil] at hf
    cases hf
  · exact hname

/-- Every character the run-collapse emits is a code character or an
underscore. -/
theorem collapseRuns_chars : ∀ {l : List Char} {c : Char}, c ∈ collapseRuns l →
    isCodeChar c = true ∨ c = '_' := by
  intro l
  induction l with
  | nil => intro c h; cases h
  | cons a t ih =>
    intro c h
    unfold collapseRuns at h
    dsimp only at h
    by_cases ha : isCodeChar a = true
    · rw [if_pos ha] at h
      rcases List.mem_cons.mp h with rfl | h2
      · exact Or.inl ha
      · exact ih h2
    · rw [if_neg ha] at h
      split at h
      · exact ih h
      · rcases List.mem_cons.mp h with rfl | h2
        · exact Or.inr rfl
        · exact ih h2

/-- Collapsing a list with no code characters leaves at most one
underscore. -/
theorem collapseRuns_no_code : ∀ {l : List Char},
    (∀ c ∈ l, ¬ isCodeChar c = true) →
    collapseRuns l = [] ∨ collapseRuns l = ['_'] := by
  intro l
  induction l with
  | nil => intro _; exact Or.inl rfl
  | cons a t ih =>
    intro h
    have ha := h a (List.mem_cons_self a t)
    have ht : ∀ c ∈ t, ¬ isCodeChar c = true := fun c hc => h c (List.mem_cons_of_mem a hc)
    unfold collapseRuns
    dsimp only
    rw [if_neg ha]
    rcases ih ht with h1 | h1
    · rw [h1]
      exact Or.inr rfl
    · rw [h1]
      exact Or.inr rfl

/-- Dropping matching elements from the end yields a prefix of the list. -/
theorem stripTrail_prefix (p : Char → Bool) (l : List Char) :
    (l.reverse.dropWhile p).reverse ++ (l.reverse.takeWhile p).reverse = l := by
  rw [← List.reverse_append, List.takeWhile_append_dropWhile, List.reverse_reverse]

/-- The head surviving a `dropWhile` fails the predicate. -/
theorem head_dropWhile_neg (p : Char → Bool) : ∀ {l : List Char} {c : Char},
    (l.dropWhile p).head? = some c → p c = false := by
  intro l
  induction l with
  | nil => intro c h; cases h
  | cons a t ih =>
    intro c h
    rw [List.dropWhile_cons] at h
    by_cases ha : p a = true
    · rw [if_pos ha] at h
      exact ih h
    · rw [if_neg ha] at h
      cases h
      exact Bool.not_eq_true _ ▸ Bool.of_not_eq_true ha

/-- The underscore-strip never leaves a leading underscore. -/
theorem stripUnderscores_head {l : List Char} {c : Char}
    (h : (stripUnderscores l).head? = some c) : c ≠ '_' := by
  unfold stripUnderscores at h
  have hpre := stripTrail_prefix (fun c => c = '_') (l.dropWhile (fun c => c = '_'))
  cases he : ((l.dropWhile (fun c => c = '_')).reverse.dropWhile (fun c => c = '_')).reverse with
  | nil => rw [he] at h; cases h
  | cons d r =>
    rw [he] at h hpre
    cases h
    have hh : (l.dropWhile (fun c => c = '_')).head? = some c := by
      rw [← hpre]
      rfl
    have := head_dropWhile_neg (fun c => c = '_') hh
    simpa using this

/-- Underscore-stripping only removes characters. -/
theorem mem_stripUnderscores {l : List Char} {c : Char}
    (h : c ∈ stripUnderscores l) : c ∈ l := by
  unfold stripUnderscores at h
  have hpre := stripTrail_prefix (fun c => c = '_') (l.dropWhile (fun c => c = '_'))
  have h1 : c ∈ l.dropWhile (fun c => c = '_') := by
    rw [← hpre]
    exact List.mem_append.mpr (Or.inl h)
  have h2 := List.takeWhile_append_dropWhile (fun c => c = '_') l
  rw [← h2]
  exact List.mem_append.mpr (Or.inr h1)

/-- Whitespace-stripping only removes characters. -/
theorem mem_stripWsL {l : List Char} {c : Char} (h : c ∈ stripWsL l) : c ∈ l := by
  unfold stripWsL at h
  have hpre := stripTrail_prefix isPyWs (l.dropWhile isPyWs)
  have h1 : c ∈ l.dropWhile isPyWs := by
    rw [← hpre]
    exact List.mem_append.mpr (Or.inl (List.mem_reverse.mp (List.mem_reverse.mpr h)))
  have h2 := List.takeWhile_append_dropWhile isPyWs l
  rw [← h2]
  exact List.mem_append.mpr (Or.inr h1)

/-- C10, counterexample.  The 64-character cap is applied *after* the
underscore strip, so a long name whose truncation point falls just after a
separator yields a code ending in `'_'`: 63 `A`s followed by `" B"`
normalizes to 63 `A`s plus a trailing underscore. -/
theorem normalize_code_trailing_underscore :
    (normalize_code (String.mk (List.replicate 63 'A' ++ [' ', 'B']))).data.getLast?
        = some '_'
    ∧ (normalize_code (String.mk (List.replicate 63 'A' ++ [' ', 'B']))).data.length = 64 := by
  refine ⟨by decide, by decide⟩

/-- C10 (amended).  `_normalize_code` is total and always returns a
non-empty string of at most 64 characters drawn from `[A-Z0-9_]` with no
*leading* underscore (a trailing underscore can survive the 64-character
truncation); any input with no ASCII alphanumeric character after diacritic
folding collapses to the fixed fallback `"ITEM"`. -/
theorem normalize_code_shape : ∀ s : String,
    (normalize_code s).data ≠ []
    ∧ (normalize_code s).data.length ≤ 64
    ∧ (∀ c ∈ (normalize_code s).data, isCodeChar c = true ∨ c = '_')
    ∧ (∀ c, (normalize_code s).data.head? = some c → c ≠ '_')
    ∧ ((∀ c ∈ s.data.flatMap asciiFold, ¬ isCodeChar (upperChar c) = true) →
        normalize_code s = "ITEM") := by
  intro s
  have hmk : ∀ l : List Char, (String.mk l).data = l := fun l => rfl
  unfold normalize_code
  dsimp only
  rw [hmk]
  set stripped := stripUnderscores (collapseRuns (((stripWsL (s.data.flatMap asciiFold))).map upperChar)) with hstr
  refine ⟨?_, ?_, ?_, ?_, ?_⟩
  · cases he : (if stripped = [] then "ITEM".data else stripped) with
    | nil =>
      by_cases hc : stripped = []
      · rw [if_pos hc] at he
        cases he
      · rw [if_neg hc] at he
        exact absurd he hc
    | cons d r =>
      intro hcontra
      rw [List.take_succ_cons] at hcontra
      cases hcontra
  · exact le_trans (List.length_take_le 64 _) (le_refl 64)
  · intro c hc
    have hc2 : c ∈ (if stripped = [] then "ITEM".data else stripped) := by
      have := List.take_append_drop 64 (if stripped = [] then "ITEM".data else stripped)
      rw [← this]
      exact List.mem_append.mpr (Or.inl hc)
    by_cases hempty : stripped = []
    · rw [if_pos hempty] at hc2
      simp only [List.mem_cons, List.not_mem_nil, or_false] at hc2
      rcases hc2 with rfl | rfl | rfl | rfl <;> exact Or.inl (by decide)
    · rw [if_neg hempty] at hc2
      exact collapseRuns_chars (mem_stripUnderscores hc2)
  · intro c hc
    by_cases hempty : stripped = []
    · rw [if_pos hempty] at hc
      cases hc
      decide
    · rw [if_neg hempty] at hc
      cases he : stripped with
      | nil => exact absurd he hempty
      | cons d r =>
        rw [he, List.take_succ_cons] at hc
        cases hc
        apply stripUnderscores_head
        rw [← hstr, he]
        rfl
  · intro hall
    have hnc : ∀ c ∈ (stripWsL (s.data.flatMap asciiFold)).map upperChar,
        ¬ isCodeChar c = true := by
      intro c hc
      rcases List.mem_map.mp hc with ⟨d, hd, rfl⟩
      exact hall d (mem_stripWsL hd)
    have hempty : stripped = [] := by
      rw [hstr]
      rcases collapseRuns_no_code hnc with h | h
      · rw [h]
        rfl
      · rw [h]
        rfl
    rw [if_pos hempty]
    rfl

/-- C10, witness: the fallback clause applied at the all-punctuation name
`"??"`, and the shape clauses at `"Router (10 Adet)"`. -/
theorem normalize_code_shape_witness :
    normalize_code "??" = "ITEM"
    ∧ (normalize_code "Router (10 Adet)").data ≠ [] :=
  ⟨(normalize_code_shape "??").2.2.2.2 (by decide),
   (normalize_code_shape "Router (10 Adet)").1⟩

/-- C8.  The pivot import of a single data row labelled
`"Router (10 Adet)"` under headers `["Row Labels", "Mart 26"]` with the
value 12000: the layout is recognized, exactly one `PlanEntry` with
`month = 3`, `year = 2026`, `amount = 12000` is created, attached to a
freshly created `BudgetItem` whose code is the normalized name
`"ROUTER_10_ADET"`, and one plan is counted. -/
theorem pivot_router_row_import :
    import_pivot_style_rows [[Cell.str "Router (10 Adet)", Cell.num 12000]]
        ["Row Labels", "Mart 26"] {}
      = some ({ items := [⟨0, "ROUTER_10_ADET", "Router (10 Adet)", none, none, none, 0⟩],
                scenarios := [⟨0, "Default 2026", 2026⟩],
                plans := [⟨2026, 3, 12000, 0, 0, none, none⟩],
                next_item_id := 1, next_scenario_id := 1, clock := 1 }, 1)
    ∧ normalize_code "Router (10 Adet)" = "ROUTER_10_ADET"
    ∧ parse_month_header "Mart 26" = some (3, 2026) := by
  refine ⟨by decide, by decide, by decide⟩

/-- The name-patch only touches `name`. -/
theorem patchName_fields (i : BudgetItem) (n : Option String) :
    (patchName i n).id = i.id ∧ (patchName i n).code = i.code
      ∧ (patchName i n).map_attribute = i.map_attribute
      ∧ (patchName i n).capex_opex = i.capex_opex
      ∧ (patchName i n).asset_type = i.asset_type
      ∧ (patchName i n).created_at = i.created_at := by
  unfold patchName
  split <;> exact ⟨rfl, rfl, rfl, rfl, rfl, rfl⟩

/-- The map-attribute patch only touches `map_attribute`. -/
theorem patchMap_fields (i : BudgetItem) (m : Option String) :
    (patchMap i m).id = i.id ∧ (patchMap i m).code = i.code
      ∧ (patchMap i m).name = i.name
      ∧ (patchMap i m).capex_opex = i.capex_opex
      ∧ (patchMap i m).asset_type = i.asset_type
      ∧ (patchMap i m).created_at = i.created_at := by
  unfold patchMap
  split <;> exact ⟨rfl, rfl, rfl, rfl, rfl, rfl⟩

/-- The capex patch only touches `capex_opex`. -/
theorem patchCapex_fields (i : BudgetItem) (k : Option String) :
    (patchCapex i k).id = i.id ∧ (patchCapex i k).code = i.code
      ∧ (patchCapex i k).name = i.name
      ∧ (patchCapex i k).map_attribute = i.map_attribute
      ∧ (patchCapex i k).asset_type = i.asset_type
      ∧ (patchCapex i k).created_at = i.created_at := by
  unfold patchCapex
  split <;> exact ⟨rfl, rfl, rfl, rfl, rfl, rfl⟩

/-- The asset patch only touches `asset_type`. -/
theorem patchAsset_fields (i : BudgetItem) (a : Option String) :
    (patchAsset i a).id = i.id ∧ (patchAsset i a).code = i.code
      ∧ (patchAsset i a).name = i.name
      ∧ (patchAsset i a).map_attribute = i.map_attribute
      ∧ (patchAsset i a).capex_opex = i.capex_opex
      ∧ (patchAsset i a).created_at = i.created_at := by
  unfold patchAsset
  split <;> exact ⟨rfl, rfl, rfl, rfl, rfl, rfl⟩

/-- After a truthy name patch, the stored name agrees with the input. -/
theorem patchName_name_of_truthy {n : Option String} (h : truthy n = true)
    (i : BudgetItem) : some (patchName i n).name = n := by
  unfold patchName
  split
  · next hc =>
    cases n with
    | none => cases h
    | some s => rfl
  · next hc =>
    rcases not_and_or.mp hc with h1 | h1
    · exact absurd h h1
    · exact not_not.mp h1

/-- A falsy name leaves the item untouched. -/
theorem patchName_of_falsy {n : Option String} (h : truthy n = false)
    (i : BudgetItem) : patchName i n = i := by
  unfold patchName
  rw [if_neg]
  intro hc
  rw [h] at hc
  cases hc.1

/-- After a truthy map patch, the stored attribute agrees with the input. -/
theorem patchMap_map_of_truthy {m : Option String} (h : truthy m = true)
    (i : BudgetItem) : (patchMap i m).map_attribute = m := by
  unfold patchMap
  split
  · rfl
  · next hc =>
    rcases not_and_or.mp hc with h1 | h1
    · exact absurd h h1
    · exact not_not.mp h1

/-- A falsy map attribute leaves the item untouched. -/
theorem patchMap_of_falsy {m : Option String} (h : truthy m = false)
    (i : BudgetItem) : patchMap i m = i := by
  unfold patchMap
  rw [if_neg]
  intro hc
  rw [h] at hc
  cases hc.1

/-- After a truthy capex patch, the stored field agrees with the input. -/
theorem patchCapex_capex_of_truthy {k : Option String} (h : truthy k = true)
    (i : BudgetItem) : (patchCapex i k).capex_opex = k := by
  unfold patchCapex
  split
  · rfl
  · next hc =>
    rcases not_and_or.mp hc with h1 | h1
    · exact absurd h h1
    · exact not_not.mp h1

/-- A falsy capex leaves the item untouched. -/
theorem patchCapex_of_falsy {k : Option String} (h : truthy k = false)
    (i : BudgetItem) : patchCapex i k = i := by
  unfold patchCapex
  rw [if_neg]
  intro hc
  rw [h] at hc
  cases hc.1

/-- After a truthy asset patch, the stored field agrees with the input. -/
theorem patchAsset_asset_of_truthy {a : Option String} (h : truthy a = true)
    (i : BudgetItem) : (patchAsset i a).asset_type = a := by
  unfold patchAsset
  split
  · rfl
  · next hc =>
    rcases not_and_or.mp hc with h1 | h1
    · exact absurd h h1
    · exact not_not.mp h1

/-- A falsy asset type leaves the item untouched. -/
theorem patchAsset_of_falsy {a : Option String} (h : truthy a = false)
    (i : BudgetItem) : patchAsset i a = i := by
  unfold patchAsset
  rw [if_neg]
  intro hc
  rw [h] at hc
  cases hc.1

/-- The map patch either preserves or overwrites with a truthy value. -/
theorem patchMap_or (i : BudgetItem) (m : Option String) :
    (patchMap i m).map_attribute = i.map_attribute
      ∨ (truthy m = true ∧ (patchMap i m).map_attribute = m) := by
  unfold patchMap
  split
  · next hc => exact Or.inr ⟨hc.1, rfl⟩
  · exact Or.inl rfl

/-- The capex patch either preserves or overwrites with a truthy value. -/
theorem patchCapex_or (i : BudgetItem) (k : Option String) :
    (patchCapex i k).capex_opex = i.capex_opex
      ∨ (truthy k = true ∧ (patchCapex i k).capex_opex = k) := by
  unfold patchCapex
  split
  · next hc => exact Or.inr ⟨hc.1, rfl⟩
  · exact Or.inl rfl

/-- The asset patch either preserves or overwrites with a truthy value. -/
theorem patchAsset_or (i : BudgetItem) (a : Option String) :
    (patchAsset i a).asset_type = i.asset_type
      ∨ (truthy a = true ∧ (patchAsset i a).asset_type = a) := by
  unfold patchAsset
  split
  · next hc => exact Or.inr ⟨hc.1, rfl⟩
  · exact Or.inl rfl

/-- The combined patch preserves id and code. -/
theorem patchItem_id_code (i : BudgetItem) (n m k a : Option String) :
    (patchItem i n m k a).id = i.id ∧ (patchItem i n m k a).code = i.code := by
  unfold patchItem
  constructor
  · rw [(patchAsset_fields _ _).1, (patchCapex_fields _ _).1, (patchMap_fields _ _).1,
      (patchName_fields _ _).1]
  · rw [(patchAsset_fields _ _).2.1, (patchCapex_fields _ _).2.1, (patchMap_fields _ _).2.1,
      (patchName_fields _ _).2.1]

/-- A truthy name input always ends up stored. -/
theorem patchItem_name_of_truthy {n : Option String} (h : truthy n = true)
    (i : BudgetItem) (m k a : Option String) : some (patchItem i n m k a).name = n := by
  unfold patchItem
  rw [(patchAsset_fields _ _).2.2.1, (patchCapex_fields _ _).2.2.1, (patchMap_fields _ _).2.2.1]
  exact patchName_name_of_truthy h i

/-- A truthy map input always ends up stored. -/
theorem patchItem_map_of_truthy {m : Option String} (h : truthy m = true)
    (i : BudgetItem) (n k a : Option String) : (patchItem i n m k a).map_attribute = m := by
  unfold patchItem
  rw [(patchAsset_fields _ _).2.2.2.1, (patchCapex_fields _ _).2.2.2.1]
  exact patchMap_map_of_truthy h _

/-- A truthy capex input always ends up stored. -/
theorem patchItem_capex_of_truthy {k : Option String} (h : truthy k = true)
    (i : BudgetItem) (n m a : Option String) : (patchItem i n m k a).capex_opex = k := by
  unfold patchItem
  rw [(patchAsset_fields _ _).2.2.2.2.1]
  exact patchCapex_capex_of_truthy h _

/-- A truthy asset input always ends up stored. -/
theorem patchItem_asset_of_truthy {a : Option String} (h : truthy a = true)
    (i : BudgetItem) (n m k : Option String) : (patchItem i n m k a).asset_type = a := by
  unfold patchItem
  exact patchAsset_asset_of_truthy h _

/-- A falsy name input leaves the stored name unchanged. -/
theorem patchItem_name_of_falsy {n : Option String} (h : truthy n = false)
    (i : BudgetItem) (m k a : Option String) : (patchItem i n m k a).name = i.name := by
  unfold patchItem
  rw [(patchAsset_fields _ _).2.2.1, (patchCapex_fields _ _).2.2.1, (patchMap_fields _ _).2.2.1,
    patchName_of_falsy h]

/-- A falsy map input leaves the stored attribute unchanged. -/
theorem patchItem_map_of_falsy {m : Option String} (h : truthy m = false)
    (i : BudgetItem) (n k a : Option String) :
    (patchItem i n m k a).map_attribute = i.map_attribute := by
  unfold patchItem
  rw [(patchAsset_fields _ _).2.2.2.1, (patchCapex_fields _ _).2.2.2.1, patchMap_of_falsy h,
    (patchName_fields _ _).2.2.1]

/-- A falsy capex input leaves the stored field unchanged. -/
theorem patchItem_capex_of_falsy {k : Option String} (h : truthy k = false)
    (i : BudgetItem) (n m a : Option String) :
    (patchItem i n m k a).capex_opex = i.capex_opex := by
  unfold patchItem
  rw [(patchAsset_fields _ _).2.2.2.2.1, patchCapex_of_falsy h, (patchMap_fields _ _).2.2.2.1,
    (patchName_fields _ _).2.2.2.1]

/-- A falsy asset input leaves the stored field unchanged. -/
theorem patchItem_asset_of_falsy {a : Option String} (h : truthy a = false)
    (i : BudgetItem) (n m k : Option String) :
    (patchItem i n m k a).asset_type = i.asset_type := by
  unfold patchItem
  rw [patchAsset_of_falsy h, (patchCapex_fields _ _).2.2.2.2.1, (patchMap_fields _ _).2.2.2.2.1,
    (patchName_fields _ _).2.2.2.2.1]

/-- The stored attribute is either preserved or overwritten by a truthy
input (never cleared by an omitted one). -/
theorem patchItem_map_or (i : BudgetItem) (n m k a : Option String) :
    (patchItem i n m k a).map_attribute = i.map_attribute
      ∨ (truthy m = true ∧ (patchItem i n m k a).map_attribute = m) := by
  by_cases h : truthy m = true
  · exact Or.inr ⟨h, patchItem_map_of_truthy h i n k a⟩
  · exact Or.inl (patchItem_map_of_falsy (Bool.of_not_eq_true h) i n k a)

/-- Same for capex. -/
theorem patchItem_capex_or (i : BudgetItem) (n m k a : Option String) :
    (patchItem i n m k a).capex_opex = i.capex_opex
      ∨ (truthy k = true ∧ (patchItem i n m k a).capex_opex = k) := by
  by_cases h : truthy k = true
  · exact Or.inr ⟨h, patchItem_capex_of_truthy h i n m a⟩
  · exact Or.inl (patchItem_capex_of_falsy (Bool.of_not_eq_true h) i n m a)

/-- Same for asset type. -/
theorem patchItem_asset_or (i : BudgetItem) (n m k a : Option String) :
    (patchItem i n m k a).asset_type = i.asset_type
      ∨ (truthy a = true ∧ (patchItem i n m k a).asset_type = a) := by
  by_cases h : truthy a = true
  · exact Or.inr ⟨h, patchItem_asset_of_truthy h i n m k⟩
  · exact Or.inl (patchItem_asset_of_falsy (Bool.of_not_eq_true h) i n m k)

/-- A truthy option is a `some`. -/
theorem truthy_isSome {o : Option String} (h : truthy o = true) : o.isSome = true := by
  cases o with
  | none => cases h
  | some s => rfl

/-- Patching a second time with the same inputs changes nothing. -/
theorem patchItem_idem (i : BudgetItem) (n m k a : Option String) :
    patchItem (patchItem i n m k a) n m k a = patchItem i n m k a := by
  have h1 : patchName (patchItem i n m k a) n = patchItem i n m k a := by
    by_cases h : truthy n = true
    · unfold patchName
      rw [if_neg]
      intro hc
      exact hc.2 (patchItem_name_of_truthy h i m k a)
    · exact patchName_of_falsy (Bool.of_not_eq_true h) _
  have h2 : patchMap (patchItem i n m k a) m = patchItem i n m k a := by
    by_cases h : truthy m = true
    · unfold patchMap
      rw [if_neg]
      intro hc
      exact hc.2 (patchItem_map_of_truthy h i n k a)
    · exact patchMap_of_falsy (Bool.of_not_eq_true h) _
  have h3 : patchCapex (patchItem i n m k a) k = patchItem i n m k a := by
    by_cases h : truthy k = true
    · unfold patchCapex
      rw [if_neg]
      intro hc
      exact hc.2 (patchItem_capex_of_truthy h i n m a)
    · exact patchCapex_of_falsy (Bool.of_not_eq_true h) _
  have h4 : patchAsset (patchItem i n m k a) a = patchItem i n m k a := by
    by_cases h : truthy a = true
    · unfold patchAsset
      rw [if_neg]
      intro hc
      exact hc.2 (patchItem_asset_of_truthy h i n m k)
    · exact patchAsset_of_falsy (Bool.of_not_eq_true h) _
  show patchAsset (patchCapex (patchMap (patchName (patchItem i n m k a) n) m) k) a
      = patchItem i n m k a
  rw [h1, h2, h3, h4]

/-- The ORM write-back `map (replace by id)` keeps the first code match at
the matched item, updated. -/
theorem find?_replace {code : String} {i it : BudgetItem} (hit : it.id = i.id)
    (hcode : it.code = code) :
    ∀ {l : List BudgetItem}, (l.map (fun x => x.id)).Nodup →
      l.find? (fun j => j.code = code) = some i →
      (l.map (fun j => if j.id = it.id then it else j)).find? (fun j => j.code = code)
        = some it := by
  intro l
  induction l with
  | nil => intro _ h; cases h
  | cons b t ih =>
    intro hnd hf
    by_cases hb : b.code = code
    · rw [List.find?_cons_of_pos _ (by simp [hb])] at hf
      cases hf
      rw [List.map_cons, if_pos hit.symm]
      exact List.find?_cons_of_pos _ (by simp [hcode])
    · rw [List.find?_cons_of_neg _ (by simp [hb])] at hf
      have hmem : i ∈ t := List.mem_of_find?_eq_some hf
      have hbid : ¬ b.id = it.id := by
        rw [hit]
        intro he
        apply (List.nodup_cons.mp hnd).1
        show b.id ∈ t.map (fun x => x.id)
        rw [he]
        exact List.mem_map_of_mem (fun x => x.id) hmem
      rw [List.map_cons, if_neg hbid, List.find?_cons_of_neg _ (by simp [hb])]
      exact ih (List.nodup_cons.mp hnd).2 hf

/-- Replaying the per-id replacement is a no-op. -/
theorem replace_map_idem (it : BudgetItem) (l : List BudgetItem) :
    (l.map (fun j => if j.id = it.id then it else j)).map
        (fun j => if j.id = it.id then it else j)
      = l.map (fun j => if j.id = it.id then it else j) := by
  rw [List.map_map]
  apply List.map_congr_left
  intro j _
  dsimp only [Function.comp]
  by_cases hj : j.id = it.id
  · rw [if_pos hj, if_pos rfl]
  · rw [if_neg hj, if_neg hj]

/-- In a list with distinct ids, exactly one member carries a member's id. -/
theorem countP_id_eq_one {i : BudgetItem} :
    ∀ {l : List BudgetItem}, (l.map (fun x => x.id)).Nodup → i ∈ l →
      l.countP (fun j => j.id = i.id) = 1 := by
  intro l
  induction l with
  | nil => intro _ h; cases h
  | cons b t ih =>
    intro hnd hmem
    rcases List.mem_cons.mp hmem with rfl | hmem2
    · rw [List.countP_cons_of_pos _ _ (by simp)]
      have : t.countP (fun j => j.id = i.id) = 0 := by
        rw [List.countP_eq_zero]
        intro j hj hc
        have hji : j.id = i.id := by simpa using hc
        apply (List.nodup_cons.mp hnd).1
        show i.id ∈ t.map (fun x => x.id)
        rw [← hji]
        exact List.mem_map_of_mem (fun x => x.id) hj
      rw [this]
    · have hbid : ¬ (b.id = i.id) := by
        intro he
        apply (List.nodup_cons.mp hnd).1
        show b.id ∈ t.map (fun x => x.id)
        rw [he]
        exact List.mem_map_of_mem (fun x => x.id) hmem2
      rw [List.countP_cons_of_neg _ _ (by simpa using hbid)]
      exact ih (List.nodup_cons.mp hnd).2 hmem2

/-- A truthy optional name stripped through `getD` round-trips. -/
theorem truthy_getD {n : Option String} (h : truthy n = true) : some (n.getD "") = n := by
  cases n with
  | none => cases h
  | some s => rfl

/-- C3.  The budget-item resolver contract: (1) under the store invariants
(unique codes, unique ids, fresh id counter), a successful resolution
leaves exactly one item with the code and re-resolving with identical
inputs returns the same item and changes nothing; (2) on a code match,
only provided non-empty classification fields that differ are patched, id
and code are preserved, and a field is never cleared because the input
omitted it; (3) when no item matches and the name is empty or missing,
resolution fails and creates nothing. -/
theorem ensure_budget_item_contract :
    ∀ (db : DB) (code : String) (name m k a : Option String),
      ((db.items.map (fun x => x.code)).Nodup →
       (db.items.map (fun x => x.id)).Nodup →
       (∀ j ∈ db.items, j.id < db.next_item_id) →
        ∀ it db', ensure_budget_item db code name m k a = Except.ok (it, db') →
          (db'.items.filter (fun j => j.code = code)).length = 1
          ∧ ensure_budget_item db' code name m k a = Except.ok (it, db'))
      ∧ (∀ i, db.items.find? (fun j => j.code = code) = some i →
          ∀ it db', ensure_budget_item db code name m k a = Except.ok (it, db') →
            it.id = i.id ∧ it.code = i.code
            ∧ (truthy name = false → it.name = i.name)
            ∧ (truthy m = false → it.map_attribute = i.map_attribute)
            ∧ (truthy k = false → it.capex_opex = i.capex_opex)
            ∧ (truthy a = false → it.asset_type = i.asset_type)
            ∧ (it.map_attribute = i.map_attribute ∨ (truthy m = true ∧ it.map_attribute = m))
            ∧ (it.capex_opex = i.capex_opex ∨ (truthy k = true ∧ it.capex_opex = k))
            ∧ (it.asset_type = i.asset_type ∨ (truthy a = true ∧ it.asset_type = a))
            ∧ (i.map_attribute.isSome = true → it.map_attribute.isSome = true)
            ∧ (i.capex_opex.isSome = true → it.capex_opex.isSome = true)
            ∧ (i.asset_type.isSome = true → it.asset_type.isSome = true))
      ∧ (db.items.find? (fun j => j.code = code) = none → truthy name = false →
          ensure_budget_item db code name m k a = Except.error ()) := by
  intro db code name m k a
  refine ⟨?_, ?_, ?_⟩
  · intro hcode hid hfresh it db' hok
    unfold ensure_budget_item at hok
    cases hfind : db.items.find? (fun j => j.code = code) with
    | some i =>
      rw [hfind] at hok
      dsimp only at hok
      cases hok
      have hiMem : i ∈ db.items := List.mem_of_find?_eq_some hfind
      have hicode : i.code = code := by simpa using List.find?_some hfind
      have hPid : (patchItem i name m k a).id = i.id := (patchItem_id_code i name m k a).1
      have hPcode : (patchItem i name m k a).code = code := by
        rw [(patchItem_id_code i name m k a).2, hicode]
      constructor
      · show (List.filter (fun j => j.code = code)
            (db.items.map (fun j => if j.id = (patchItem i name m k a).id
              then patchItem i name m k a else j))).length = 1
        rw [← List.countP_eq_length_filter, List.countP_map]
        rw [List.countP_congr (q := fun j => decide (j.id = i.id)) ?_]
        · exact countP_id_eq_one hid hiMem
        · intro j hj
          dsimp only [Function.comp]
          by_cases hji : j.id = (patchItem i name m k a).id
          · rw [if_pos hji]
            simp only [decide_eq_true_eq]
            constructor
            · intro _
              rw [← hPid, hji]
            · intro _
              exact hPcode
          · rw [if_neg hji]
            simp only [decide_eq_true_eq]
            constructor
            · intro hjc
              exact absurd (congrArg (fun x => x.id)
                (List.inj_on_of_nodup_map hcode hj hiMem (by rw [hjc, hicode])))
                (by rw [hPid] at hji; exact hji)
            · intro hj2
              exact absurd (by rw [hPid]; exact hj2) hji
      · unfold ensure_budget_item
        rw [show ({ db with items := db.items.map (fun j =>
              if j.id = (patchItem i name m k a).id then patchItem i name m k a else j) } : DB).items
            = db.items.map (fun j =>
              if j.id = (patchItem i name m k a).id then patchItem i name m k a else j) from rfl]
        rw [find?_replace hPid hPcode hid hfind]
        dsimp only
        rw [patchItem_idem]
        rw [replace_map_idem]
    | none =>
      rw [hfind] at hok
      dsimp only at hok
      split at hok
      · cases hok
      · next hn =>
        have htr : truthy name = true := not_not.mp hn
        cases hok
        have hone : ∀ x : BudgetItem, x.map_attribute = m → x.capex_opex = k →
            x.asset_type = a → some x.name = name → patchItem x name m k a = x := by
          intro x hxm hxk hxa hxn
          unfold patchItem
          rw [show patchName x name = x from by
            unfold patchName
            rw [if_neg]
            intro hc
            exact hc.2 hxn]
          rw [show patchMap x m = x from by
            unfold patchMap
            rw [if_neg]
            intro hc
            exact hc.2 hxm]
          rw [show patchCapex x k = x from by
            unfold patchCapex
            rw [if_neg]
            intro hc
            exact hc.2 hxk]
          unfold patchAsset
          rw [if_neg]
          intro hc
          exact hc.2 hxa
        constructor
        · dsimp only
          rw [List.filter_append]
          rw [List.filter_eq_nil_iff.mpr (fun j hj => by
            simpa using List.find?_eq_none.mp hfind j hj)]
          simp
        · unfold ensure_budget_item
          dsimp only
          rw [List.find?_append, hfind]
          rw [List.find?_cons_of_pos _ (by simp)]
          dsimp only [Option.or]
          rw [hone _ rfl rfl rfl (truthy_getD htr)]
          rw [List.map_append]
          rw [show List.map (fun j => if j.id = (⟨db.next_item_id, code, name.getD "", m, k, a, db.clock⟩ : BudgetItem).id then (⟨db.next_item_id, code, name.getD "", m, k, a, db.clock⟩ : BudgetItem) else j) db.items = db.items from by
            rw [List.map_congr_left (fun j hj => by
              rw [if_neg (Nat.ne_of_lt (hfresh j hj))])]
            exact List.map_id' db.items]
          simp
  · intro i hfind it db' hok
    unfold ensure_budget_item at hok
    rw [hfind] at hok
    dsimp only at hok
    cases hok
    refine ⟨(patchItem_id_code i name m k a).1, (patchItem_id_code i name m k a).2,
      ?_, ?_, ?_, ?_, patchItem_map_or i name m k a, patchItem_capex_or i name m k a,
      patchItem_asset_or i name m k a, ?_, ?_, ?_⟩
    · exact fun h => patchItem_name_of_falsy h i m k a
    · exact fun h => patchItem_map_of_falsy h i name k a
    · exact fun h => patchItem_capex_of_falsy h i name m a
    · exact fun h => patchItem_asset_of_falsy h i name m k
    · intro hs
      rcases patchItem_map_or i name m k a with h | ⟨ht, he⟩
      · rw [h]
        exact hs
      · rw [he]
        exact truthy_isSome ht
    · intro hs
      rcases patchItem_capex_or i name m k a with h | ⟨ht, he⟩
      · rw [h]
        exact hs
      · rw [he]
        exact truthy_isSome ht
    · intro hs
      rcases patchItem_asset_or i name m k a with h | ⟨ht, he⟩
      · rw [h]
        exact hs
      · rw [he]
        exact truthy_isSome ht
  · intro hfind hn
    unfold ensure_budget_item
    rw [hfind]
    dsimp only
    rw [if_pos (by rw [hn]; intro hc; cases hc)]

/-- C3, witness: the contract applied at the empty store — creating
`"C1"` with name `"N"` leaves exactly one row and re-resolving returns it
unchanged; resolving a fresh code with no name errors out. -/
theorem ensure_budget_item_contract_witness :
    ((({ items := [⟨0, "C1", "N", none, none, none, 0⟩], next_item_id := 1, clock := 1 } : DB).items.filter (fun j => j.code = "C1")).length = 1
      ∧ ensure_budget_item { items := [⟨0, "C1", "N", none, none, none, 0⟩], next_item_id := 1, clock := 1 } "C1" (some "N") none none none
        = Except.ok (⟨0, "C1", "N", none, none, none, 0⟩, { items := [⟨0, "C1", "N", none, none, none, 0⟩], next_item_id := 1, clock := 1 }))
    ∧ ensure_budget_item {} "C2" none none none none = Except.error () := by
  constructor
  · exact (ensure_budget_item_contract {} "C1" (some "N") none none none).1
      (by decide) (by decide) (fun j hj => absurd hj (List.not_mem_nil j))
      ⟨0, "C1", "N", none, none, none, 0⟩
      { items := [⟨0, "C1", "N", none, none, none, 0⟩], next_item_id := 1, clock := 1 }
      (by rfl)
  · exact (ensure_budget_item_contract {} "C2" none none none none).2.2 (by rfl) (by rfl)

/-- The spec's planned figure for one month: the sum of `PlanEntry.amount`
over the rows matching the year, the optional filters, and that month. -/
def specPlanned (db : DB) (year : Int) (sid bid : Option Nat) (mo : Int) : Rat :=
  ((db.plans.filter (fun p => planInScope p year sid bid && (p.month = mo : Bool))).map
    (fun p => p.amount)).sum

/-- The spec's actual figure for one month: the sum of `Expense.amount`
over recorded, in-budget expenses dated in that year and month, matching
the filters. -/
def specActual (db : DB) (year : Int) (sid bid : Option Nat) (mo : Int) : Rat :=
  ((db.expenses.filter (fun e => expenseInScope e year sid bid
      && (e.expense_date.month = mo : Bool))).map (fun e => e.amount)).sum

/-- The month axis `1..12`. -/
theorem mem_month_range (mo : Int) :
    mo ∈ (List.range 12).map (fun (i : Nat) => (i : Int) + 1) ↔ 1 ≤ mo ∧ mo ≤ 12 := by
  rw [show (List.range 12).map (fun (i : Nat) => (i : Int) + 1)
      = [1, 2, 3, 4, 5, 6, 7, 8, 9, 10, 11, 12] from by decide]
  simp only [List.mem_cons, List.not_mem_nil, or_false]
  omega

/-- Closed form of the unfiltered monthly summary: one aggregate per month
of the sorted deduplicated union of data months and `1..12`, with the
grouped sums. -/
theorem compute_monthly_summary_none_eq (db : DB) (year : Int) (sid bid : Option Nat) :
    compute_monthly_summary db year sid bid none
      = (List.insertionSort (· ≤ ·)
          (((db.plans.filter (fun p => planInScope p year sid bid)).map (fun p => p.month)
            ++ (db.expenses.filter (fun e => expenseInScope e year sid bid)).map
                (fun e => e.expense_date.month)
            ++ (List.range 12).map (fun (i : Nat) => (i : Int) + 1)).dedup)).map
        (fun mo => ⟨mo, specPlanned db year sid bid mo, specActual db year sid bid mo⟩) := by
  unfold compute_monthly_summary
  dsimp only
  rw [show (fun p => planInScope p year sid bid && true) = (fun p => planInScope p year sid bid)
      from funext (fun p => Bool.and_true _)]
  rw [show (fun e => expenseInScope e year sid bid && true) = (fun e => expenseInScope e year sid bid)
      from funext (fun e => Bool.and_true _)]
  apply List.map_congr_left
  intro mo _
  dsimp only
  unfold specPlanned specActual
  rw [List.filter_filter, List.filter_filter]
  rw [List.filter_congr (fun p _ => Bool.and_comm (decide (p.month = mo))
    (planInScope p year sid bid))]
  rw [List.filter_congr (fun e _ => Bool.and_comm (decide (e.expense_date.month = mo))
    (expenseInScope e year sid bid))]

/-- Closed form of the single-month summary. -/
theorem compute_monthly_summary_some_eq (db : DB) (year : Int) (sid bid : Option Nat)
    (mo : Int) :
    compute_monthly_summary db year sid bid (some mo)
      = [⟨mo, specPlanned db year sid bid mo, specActual db year sid bid mo⟩] := by
  unfold compute_monthly_summary
  dsimp only [List.map_cons, List.map_nil]
  unfold specPlanned specActual
  rw [List.filter_filter, List.filter_filter]
  rw [List.filter_congr (fun p _ => show (decide (p.month = mo)
      && (planInScope p year sid bid && decide (p.month = mo)))
      = (planInScope p year sid bid && decide (p.month = mo)) from by
    cases planInScope p year sid bid <;> cases hd : decide (p.month = mo) <;> simp)]
  rw [List.filter_congr (fun e _ => show (decide (e.expense_date.month = mo)
      && (expenseInScope e year sid bid && decide (e.expense_date.month = mo)))
      = (expenseInScope e year sid bid && decide (e.expense_date.month = mo)) from by
    cases expenseInScope e year sid bid <;> cases hd : decide (e.expense_date.month = mo) <;> simp)]

/-- C4.  The monthly-summary contract: without a month filter the result
carries exactly one aggregate per month of {1..12} ∪ {months with plan
data} ∪ {months with expense data}, in strictly ascending month order,
planned and actual being the grouped sums over the scoped plan rows and
the recorded, in-budget expense rows; with a month filter the result is
exactly the one requested month; `saving` is always the computed
difference. -/
theorem monthly_summary_contract :
    ∀ (db : DB) (year : Int) (sid bid : Option Nat),
      List.Sorted (· < ·)
        ((compute_monthly_summary db year sid bid none).map (fun x => x.month))
      ∧ (∀ mo : Int,
          mo ∈ (compute_monthly_summary db year sid bid none).map (fun x => x.month)
          ↔ ((1 ≤ mo ∧ mo ≤ 12)
             ∨ (∃ p ∈ db.plans, planInScope p year sid bid = true ∧ p.month = mo)
             ∨ (∃ e ∈ db.expenses, expenseInScope e year sid bid = true
                  ∧ e.expense_date.month = mo)))
      ∧ (∀ x ∈ compute_monthly_summary db year sid bid none,
          x.planned = specPlanned db year sid bid x.month
          ∧ x.actual = specActual db year sid bid x.month
          ∧ x.saving = x.planned - x.actual)
      ∧ (∀ mo : Int, compute_monthly_summary db year sid bid (some mo)
          = [⟨mo, specPlanned db year sid bid mo, specActual db year sid bid mo⟩]) := by
  intro db year sid bid
  have hmonths : (compute_monthly_summary db year sid bid none).map (fun x => x.month)
      = List.insertionSort (· ≤ ·)
          (((db.plans.filter (fun p => planInScope p year sid bid)).map (fun p => p.month)
            ++ (db.expenses.filter (fun e => expenseInScope e year sid bid)).map
                (fun e => e.expense_date.month)
            ++ (List.range 12).map (fun (i : Nat) => (i : Int) + 1)).dedup) := by
    rw [compute_monthly_summary_none_eq, List.map_map]
    rw [show ((fun (x : MonthlyAggregate) => x.month) ∘ (fun mo =>
        (⟨mo, specPlanned db year sid bid mo, specActual db year sid bid mo⟩ : MonthlyAggregate)))
      = (fun mo => mo) from funext (fun mo => rfl)]
    exact List.map_id' _
  refine ⟨?_, ?_, ?_, compute_monthly_summary_some_eq db year sid bid⟩
  · rw [hmonths]
    have hsorted := List.sorted_insertionSort (· ≤ ·)
      (((db.plans.filter (fun p => planInScope p year sid bid)).map (fun p => p.month)
        ++ (db.expenses.filter (fun e => expenseInScope e year sid bid)).map
            (fun e => e.expense_date.month)
        ++ (List.range 12).map (fun (i : Nat) => (i : Int) + 1)).dedup)
    have hnodup := (List.perm_insertionSort (· ≤ ·)
      (((db.plans.filter (fun p => planInScope p year sid bid)).map (fun p => p.month)
        ++ (db.expenses.filter (fun e => expenseInScope e year sid bid)).map
            (fun e => e.expense_date.month)
        ++ (List.range 12).map (fun (i : Nat) => (i : Int) + 1)).dedup)).nodup_iff.mpr
      (List.nodup_dedup _)
    exact hsorted.lt_of_le hnodup
  · intro mo
    rw [hmonths]
    rw [(List.perm_insertionSort (· ≤ ·) _).mem_iff, List.mem_dedup]
    simp only [List.mem_append, List.mem_map, List.mem_filter, mem_month_range]
    constructor
    · rintro ((⟨p, ⟨hp, hscope⟩, hmo⟩ | ⟨e, ⟨he, hscope⟩, hmo⟩) | hrange)
      · exact Or.inr (Or.inl ⟨p, hp, hscope, hmo⟩)
      · exact Or.inr (Or.inr ⟨e, he, hscope, hmo⟩)
      · obtain ⟨a, ha, hamo⟩ := hrange
        have := List.mem_range.mp ha
        exact Or.inl (by omega)
    · rintro (hrange | ⟨p, hp, hscope, hmo⟩ | ⟨e, he, hscope, hmo⟩)
      · exact Or.inr ⟨(mo - 1).toNat, List.mem_range.mpr (by omega), by omega⟩
      · exact Or.inl (Or.inl ⟨p, ⟨hp, hscope⟩, hmo⟩)
      · exact Or.inl (Or.inr ⟨e, ⟨he, hscope⟩, hmo⟩)
  · intro x hx
    rw [compute_monthly_summary_none_eq] at hx
    rcases List.mem_map.mp hx with ⟨mo, _, rfl⟩
    exact ⟨rfl, rfl, rfl⟩

/-- C4, witness: the value clause applied at the empty store's month-1
aggregate, whose membership is discharged by evaluation. -/
theorem monthly_summary_contract_witness :
    (⟨1, 0, 0⟩ : MonthlyAggregate).planned = specPlanned {} 2024 none none 1
    ∧ (⟨1, 0, 0⟩ : MonthlyAggregate).actual = specActual {} 2024 none none 1 := by
  have h := (monthly_summary_contract {} 2024 none none).2.2.1 ⟨1, 0, 0⟩ (by decide)
  exact ⟨h.1, h.2.1⟩

/-- Exhaustive row-level behaviour of `import_csv`'s per-row handler: a
skipped row commits no plan or expense row (only resolver side effects), a
plan row appends exactly one plan, an expense row exactly one expense. -/
theorem processCsvRow_cases (db : DB) (r : CsvRow) :
    ((processCsvRow db r).2 = RowOutcome.skipped
      ∧ (processCsvRow db r).1.plans = db.plans
      ∧ (processCsvRow db r).1.expenses = db.expenses)
    ∨ ((processCsvRow db r).2 = RowOutcome.plan
      ∧ (∃ pl, (processCsvRow db r).1.plans = db.plans ++ [pl])
      ∧ (processCsvRow db r).1.expenses = db.expenses)
    ∨ ((processCsvRow db r).2 = RowOutcome.expense
      ∧ (processCsvRow db r).1.plans = db.plans
      ∧ (∃ ex, (processCsvRow db r).1.expenses = db.expenses ++ [ex])) := by
  unfold processCsvRow
  dsimp only
  split
  · split
    · exact Or.inl ⟨rfl, rfl, rfl⟩
    · split
      · exact Or.inl ⟨rfl, rfl, rfl⟩
      · next item db1 he =>
        obtain ⟨hp1, hx1, -, -⟩ := ensure_budget_item_tables he
        split
        · exact Or.inl ⟨rfl, hp1, hx1⟩
        · next year hy =>
          obtain ⟨hp2, hx2, -, -⟩ := get_or_create_scenario_tables db1 (rowGet r "scenario") year
          split
          · exact Or.inl ⟨rfl, hp2.trans hp1, hx2.trans hx1⟩
          · split
            · exact Or.inl ⟨rfl, hp2.trans hp1, hx2.trans hx1⟩
            · exact Or.inr (Or.inl ⟨rfl, ⟨_, by dsimp only; rw [hp2, hp1]⟩,
                by dsimp only; rw [hx2, hx1]⟩)
  · split
    · split
      · exact Or.inl ⟨rfl, rfl, rfl⟩
      · split
        · exact Or.inl ⟨rfl, rfl, rfl⟩
        · next item db1 he =>
          obtain ⟨hp1, hx1, -, -⟩ := ensure_budget_item_tables he
          split
          · exact Or.inl ⟨rfl, hp1, hx1⟩
          · next year hy =>
            obtain ⟨hp2, hx2, -, -⟩ :=
              get_or_create_scenario_tables db1 (rowGet r "scenario") year
            split
            · exact Or.inl ⟨rfl, hp2.trans hp1, hx2.trans hx1⟩
            · split
              · exact Or.inl ⟨rfl, hp2.trans hp1, hx2.trans hx1⟩
              · split
                · exact Or.inl ⟨rfl, hp2.trans hp1, hx2.trans hx1⟩
                · split
                  · exact Or.inl ⟨rfl, hp2.trans hp1, hx2.trans hx1⟩
                  · exact Or.inr (Or.inr ⟨rfl, by dsimp only; rw [hp2, hp1],
                      ⟨_, by dsimp only; rw [hx2, hx1]⟩⟩)
    · exact Or.inl ⟨rfl, rfl, rfl⟩

/-- C1, counterexample.  A JSON list import with one invalid record (no
`budget_code`) fails that record, yet the returned summary's
`skipped_rows` stays 0: `_import_plan_list`'s `except` clause rolls back
but never increments the skipped counter of `import_json`'s summary. -/
theorem import_skip_counterexample :
    import_json {} (JsonPayload.bareList
        [{ year := some 2024, month := some 1, amount := some 10 }])
      = Except.ok ({}, { imported_plans := 0, imported_expenses := 0, skipped_rows := 0, message := some "JSON import completed" }) := by
  rfl

/-- C1 (amended).  Per-record failure handling differs by format.  CSV:
every row yields exactly one of imported-plan/imported-expense/skipped (the
three counters sum to the row count), committed plans and expenses only
ever grow, a skipped row leaves the plan and expense tables exactly as they
were (only its already-committed resolver side effects remain), and a
skipped head row merely adds one to `skipped_rows` of the remaining
rows' run — processing always continues.  JSON list: a failing record is
rolled back and processing continues, but `skipped_rows` is left at 0.
JSON year/items tree: a failing item aborts the import of all remaining
items, keeping the rows committed before the failure. -/
theorem per_record_failure_handling :
    (∀ (db : DB) (rows : List CsvRow),
      (import_csv db rows).2.imported_plans + (import_csv db rows).2.imported_expenses
          + (import_csv db rows).2.skipped_rows = rows.length)
    ∧ (∀ (db : DB) (rows : List CsvRow), ∃ t u,
        (import_csv db rows).1.plans = db.plans ++ t
        ∧ (import_csv db rows).1.expenses = db.expenses ++ u)
    ∧ (∀ (db : DB) (r : CsvRow), (processCsvRow db r).2 = RowOutcome.skipped →
        (processCsvRow db r).1.plans = db.plans
        ∧ (processCsvRow db r).1.expenses = db.expenses)
    ∧ (∀ (db : DB) (r : CsvRow) (rest : List CsvRow),
        (processCsvRow db r).2 = RowOutcome.skipped →
        import_csv db (r :: rest)
          = ((import_csv (processCsvRow db r).1 rest).1,
             bumpSummary RowOutcome.skipped (import_csv (processCsvRow db r).1 rest).2))
    ∧ (∀ (db : DB) (l : List JsonPlanEntry),
        import_json db (JsonPayload.bareList l)
          = Except.ok ((import_plan_list db l).1,
              ⟨(import_plan_list db l).2, 0, 0, some "JSON import completed"⟩))
    ∧ (∀ (db : DB) (e : JsonPlanEntry) (rest : List JsonPlanEntry),
        (processJsonPlanEntry db e).2 = false →
        import_plan_list db (e :: rest) = import_plan_list (processJsonPlanEntry db e).1 rest)
    ∧ (import_year_month_structure {} (some 2024) none
        [("A", { plan := [("1", 10)] }), ("B", { name := some "Bee", plan := [("1", 5)] })]
      = Except.error { scenarios := [⟨0, "Default 2024", 2024⟩], next_scenario_id := 1 }) := by
  have hstep : ∀ (db : DB) (r : CsvRow) (rest : List CsvRow),
      import_csv db (r :: rest)
        = ((import_csv (processCsvRow db r).1 rest).1,
           bumpSummary (processCsvRow db r).2 (import_csv (processCsvRow db r).1 rest).2) :=
    fun db r rest => rfl
  refine ⟨?_, ?_, ?_, ?_, fun db l => rfl, ?_, by rfl⟩
  · intro db rows
    induction rows generalizing db with
    | nil => rfl
    | cons r rest ih =>
      rw [hstep]
      have := ih (processCsvRow db r).1
      cases (processCsvRow db r).2 <;>
        · dsimp only [bumpSummary]
          simp only [List.length_cons]
          omega
  · intro db rows
    induction rows generalizing db with
    | nil =>
      refine ⟨[], [], ?_, ?_⟩ <;> rw [List.append_nil] <;> rfl
    | cons r rest ih =>
      obtain ⟨t, u, ht, hu⟩ := ih (processCsvRow db r).1
      rw [hstep]
      rcases processCsvRow_cases db r with ⟨-, hp, hx⟩ | ⟨-, ⟨pl, hp⟩, hx⟩ | ⟨-, hp, ⟨ex, hx⟩⟩
      · refine ⟨t, u, ?_, ?_⟩
        · rw [show ((import_csv (processCsvRow db r).1 rest).1,
              bumpSummary (processCsvRow db r).2
                (import_csv (processCsvRow db r).1 rest).2).1
            = (import_csv (processCsvRow db r).1 rest).1 from rfl, ht, hp]
        · rw [show ((import_csv (processCsvRow db r).1 rest).1,
              bumpSummary (processCsvRow db r).2
                (import_csv (processCsvRow db r).1 rest).2).1
            = (import_csv (processCsvRow db r).1 rest).1 from rfl, hu, hx]
      · refine ⟨pl :: t, u, ?_, ?_⟩
        · rw [show ((import_csv (processCsvRow db r).1 rest).1,
              bumpSummary (processCsvRow db r).2
                (import_csv (processCsvRow db r).1 rest).2).1
            = (import_csv (processCsvRow db r).1 rest).1 from rfl, ht, hp, List.append_assoc]
          rfl
        · rw [show ((import_csv (processCsvRow db r).1 rest).1,
              bumpSummary (processCsvRow db r).2
                (import_csv (processCsvRow db r).1 rest).2).1
            = (import_csv (processCsvRow db r).1 rest).1 from rfl, hu, hx]
      · refine ⟨t, ex :: u, ?_, ?_⟩
        · rw [show ((import_csv (processCsvRow db r).1 rest).1,
              bumpSummary (processCsvRow db r).2
                (import_csv (processCsvRow db r).1 rest).2).1
            = (import_csv (processCsvRow db r).1 rest).1 from rfl, ht, hp]
        · rw [show ((import_csv (processCsvRow db r).1 rest).1,
              bumpSummary (processCsvRow db r).2
                (import_csv (processCsvRow db r).1 rest).2).1
            = (import_csv (processCsvRow db r).1 rest).1 from rfl, hu, hx, List.append_assoc]
          rfl
  · intro db r hskip
    rcases processCsvRow_cases db r with ⟨-, hp, hx⟩ | ⟨ho, -, -⟩ | ⟨ho, -, -⟩
    · exact ⟨hp, hx⟩
    · rw [hskip] at ho
      cases ho
    · rw [hskip] at ho
      cases ho
  · intro db r rest hskip
    rw [hstep, hskip]
  · intro db e rest hfail
    show ((import_plan_list (processJsonPlanEntry db e).1 rest).1,
        (if (processJsonPlanEntry db e).2 then 1 else 0)
          + (import_plan_list (processJsonPlanEntry db e).1 rest).2) = _
    rw [hfail]
    simp

/-- C1, witness: the skip-continue clauses applied at a concrete skipping
row (unknown `type` column) over the empty store. -/
theorem per_record_failure_handling_witness :
    (processCsvRow {} [("type", "junk")]).1.plans = ({} : DB).plans
    ∧ import_csv {} [[("type", "junk")]]
        = ((import_csv (processCsvRow {} [("type", "junk")]).1 []).1,
           bumpSummary RowOutcome.skipped (import_csv (processCsvRow {} [("type", "junk")]).1 []).2)
    ∧ import_plan_list {} [{ year := some 2024 }]
        = import_plan_list (processJsonPlanEntry {} { year := some 2024 }).1 [] := by
  refine ⟨(per_record_failure_handling.2.2.1 {} [("type", "junk")] (by rfl)).1,
    per_record_failure_handling.2.2.2.1 {} [("type", "junk")] [] (by rfl),
    per_record_failure_handling.2.2.2.2.2.1 {} { year := some 2024 } [] (by rfl)⟩

/-- The spec's sticky form-prepared lookup: the stored flag for the row's
(budget code, year, month, scenario, department) combination, defaulting
to `false` when the mark-prepared mutation never wrote one. -/
def statusLookup (db : DB) (r : PurchaseReminderRow) : Bool :=
  ((db.statuses.find? (fun st => (st.budget_code = r.budget_code : Bool)
      && (st.year = r.year : Bool) && (st.month = r.month : Bool)
      && (st.scenario_id = r.scenario_id : Bool)
      && (st.department = r.department.getD "" : Bool))).map
    (fun st => st.is_form_prepared)).getD false

/-- Membership characterization of one plan row's contribution to the
purchase-reminder listing. -/
theorem mem_reminderRowsFor {db : DB} {year month : Int} {sid : Option Nat}
    {dept : Option String} {p : PlanEntry} {r : PurchaseReminderRow} :
    r ∈ reminderRowsFor db year month sid dept p ↔
      ∃ item, db.items.find? (fun it => it.id = p.budget_item_id) = some item
        ∧ reminderCond db year month sid dept p = true
        ∧ ((reminderStatusRows db year month sid dept).filter
              (fun st => statusMatchesPlan st p (planBudgetCode p item)) = []
            ∧ r = mkReminder p item (planBudgetCode p item) false
          ∨ ∃ st ∈ (reminderStatusRows db year month sid dept).filter
              (fun st => statusMatchesPlan st p (planBudgetCode p item)),
              r = mkReminder p item (planBudgetCode p item) st.is_form_prepared) := by
  cases hf : db.items.find? (fun it => it.id = p.budget_item_id) with
  | none =>
    unfold reminderRowsFor
    rw [hf]
    simp
  | some item =>
    unfold reminderRowsFor
    rw [hf]
    dsimp only
    by_cases hc : reminderCond db year month sid dept p = true
    · rw [if_pos hc]
      cases hm : (reminderStatusRows db year month sid dept).filter
          (fun st => statusMatchesPlan st p (planBudgetCode p item)) with
      | nil =>
        dsimp only
        constructor
        · intro h
          rcases List.mem_singleton.mp h with rfl
          exact ⟨item, rfl, hc, Or.inl ⟨hm, rfl⟩⟩
        · rintro ⟨item', hi', -, hbr⟩
          have hii : item' = item := by
            cases hi'
            rfl
          subst hii
          rcases hbr with ⟨-, h⟩ | ⟨st, hstf, -⟩
          · rw [h]
            exact List.mem_singleton.mpr rfl
          · rw [hm] at hstf
            cases hstf
      | cons st0 l =>
        dsimp only
        constructor
        · intro h
          rcases List.mem_map.mp h with ⟨st, hst, rfl⟩
          refine ⟨item, rfl, hc, Or.inr ⟨st, ?_, rfl⟩⟩
          rw [hm]
          exact hst
        · rintro ⟨item', hi', -, hbr⟩
          have hii : item' = item := by
            cases hi'
            rfl
          subst hii
          rcases hbr with ⟨hnil, -⟩ | ⟨st, hstf, hr⟩
          · rw [hm] at hnil
            cases hnil
          · rw [hm] at hstf
            rw [hr]
            exact List.mem_map.mpr ⟨st, hstf, rfl⟩
    · rw [if_neg hc]
      constructor
      · intro h
        cases h
      · rintro ⟨item', -, hc', -⟩
        exact absurd hc' hc

/-- The qualifying condition, spelled out. -/
theorem reminderCond_iff {db : DB} {year month : Int} {sid : Option Nat}
    {dept : Option String} {p : PlanEntry} :
    reminderCond db year month sid dept p = true ↔
      (p.year = year ∧ p.month = month ∧ 0 < p.amount
        ∧ (∀ s, sid = some s → p.scenario_id = s)
        ∧ (∀ d, dept = some d → p.department = some d)
        ∧ ¬ ∃ e ∈ db.expenses, e.budget_item_id = p.budget_item_id
            ∧ e.expense_date.year = year ∧ e.expense_date.month = month
            ∧ e.status = ExpenseStatus.recorded
            ∧ (∀ s, sid = some s → e.scenario_id = some s)) := by
  unfold reminderCond hasRecordedExpense
  cases sid <;> cases dept <;>
    simp [List.any_eq_true, and_assoc]

/-- The status join key, spelled out. -/
theorem statusMatchesPlan_iff {st : PurchaseFormStatusExt} {p : PlanEntry} {pcode : String} :
    statusMatchesPlan st p pcode = true ↔
      (st.budget_code = pcode ∧ st.year = p.year ∧ st.month = p.month
        ∧ st.scenario_id = p.scenario_id ∧ st.department = p.department.getD "") := by
  unfold statusMatchesPlan
  simp [and_assoc]

/-- The status prefilter, spelled out. -/
theorem mem_reminderStatusRows {db : DB} {year month : Int} {sid : Option Nat}
    {dept : Option String} {st : PurchaseFormStatusExt} :
    st ∈ reminderStatusRows db year month sid dept ↔
      (st ∈ db.statuses ∧ st.year = year ∧ st.month = month
        ∧ (∀ s, sid = some s → st.scenario_id = s)
        ∧ (∀ d, dept = some d → st.department = d)) := by
  unfold reminderStatusRows
  rw [List.mem_filter]
  cases sid <;> cases dept <;> simp [and_assoc]

/-- C9.  The purchase-reminder listing contract: under referential
integrity of the plan rows, the listed budget items are exactly those with
a positive plan for the requested year and month (passing the optional
scenario and department filters) and no recorded expense for the same item
in that exact month; and, when the stored form statuses are unique per
(code, year, month, scenario, department) key, every listed row is
annotated with the stored sticky flag for its combination, defaulting to
`false` when the mark-prepared mutation never set one. -/
theorem purchase_reminders_contract :
    ∀ (db : DB) (year month : Int) (sid : Option Nat) (dept : Option String),
      ((∀ p ∈ db.plans, ∃ it ∈ db.items, it.id = p.budget_item_id) →
        ∀ i : Nat,
          (∃ r ∈ list_purchase_reminders db year month sid dept, r.budget_item_id = i)
          ↔ (∃ p ∈ db.plans, p.budget_item_id = i
              ∧ p.year = year ∧ p.month = month ∧ 0 < p.amount
              ∧ (∀ s, sid = some s → p.scenario_id = s)
              ∧ (∀ d, dept = some d → p.department = some d)
              ∧ ¬ ∃ e ∈ db.expenses, e.budget_item_id = i
                  ∧ e.expense_date.year = year ∧ e.expense_date.month = month
                  ∧ e.status = ExpenseStatus.recorded
                  ∧ (∀ s, sid = some s → e.scenario_id = some s)))
      ∧ ((db.statuses.map (fun st =>
            (st.budget_code, st.year, st.month, st.scenario_id, st.department))).Nodup →
          ∀ r ∈ list_purchase_reminders db year month sid dept,
            r.is_form_prepared = statusLookup db r) := by
  intro db year month sid dept
  constructor
  · intro hFK i
    constructor
    · rintro ⟨r, hr, hi⟩
      subst hi
      unfold list_purchase_reminders at hr
      rw [List.mem_dedup] at hr
      rcases List.mem_flatMap.mp hr with ⟨p, hp, hrp⟩
      rcases mem_reminderRowsFor.mp hrp with ⟨item, hfind, hcond, hbr⟩
      have hfacts := reminderCond_iff.mp hcond
      have hid : r.budget_item_id = p.budget_item_id := by
        rcases hbr with ⟨-, hr2⟩ | ⟨st, -, hr2⟩ <;> rw [hr2] <;> rfl
      refine ⟨p, hp, hid.symm, hfacts.1, hfacts.2.1, hfacts.2.2.1,
        hfacts.2.2.2.1, hfacts.2.2.2.2.1, ?_⟩
      rw [hid]
      exact hfacts.2.2.2.2.2
    · rintro ⟨p, hp, hpid, hy, hmo, ha, hs, hd, hne⟩
      have hcond : reminderCond db year month sid dept p = true :=
        reminderCond_iff.mpr ⟨hy, hmo, ha, hs, hd, by rw [hpid]; exact hne⟩
      obtain ⟨item0, hitem0, hitid⟩ := hFK p hp
      have hfind : ∃ item, db.items.find? (fun it => it.id = p.budget_item_id) = some item := by
        cases hfe : db.items.find? (fun it => it.id = p.budget_item_id) with
        | some it => exact ⟨it, rfl⟩
        | none =>
          exact absurd hitid (by simpa using List.find?_eq_none.mp hfe item0 hitem0)
      obtain ⟨item, hfind⟩ := hfind
      cases hm2 : (reminderStatusRows db year month sid dept).filter
          (fun st => statusMatchesPlan st p (planBudgetCode p item)) with
      | nil =>
        refine ⟨mkReminder p item (planBudgetCode p item) false, ?_, hpid⟩
        unfold list_purchase_reminders
        rw [List.mem_dedup]
        exact List.mem_flatMap.mpr ⟨p, hp,
          mem_reminderRowsFor.mpr ⟨item, hfind, hcond, Or.inl ⟨hm2, rfl⟩⟩⟩
      | cons st0 l =>
        refine ⟨mkReminder p item (planBudgetCode p item) st0.is_form_prepared, ?_, hpid⟩
        unfold list_purchase_reminders
        rw [List.mem_dedup]
        refine List.mem_flatMap.mpr ⟨p, hp,
          mem_reminderRowsFor.mpr ⟨item, hfind, hcond, Or.inr ⟨st0, ?_, rfl⟩⟩⟩
        rw [hm2]
        exact List.mem_cons_self st0 l
  · intro hkeys r hr
    unfold list_purchase_reminders at hr
    rw [List.mem_dedup] at hr
    rcases List.mem_flatMap.mp hr with ⟨p, hp, hrp⟩
    rcases mem_reminderRowsFor.mp hrp with ⟨item, hfind, hcond, hbr⟩
    have hfacts := reminderCond_iff.mp hcond
    rcases hbr with ⟨hnil, rfl⟩ | ⟨st, hstf, rfl⟩
    · unfold statusLookup
      rw [show db.statuses.find? (fun st =>
          (st.budget_code = (mkReminder p item (planBudgetCode p item) false).budget_code : Bool)
          && (st.year = (mkReminder p item (planBudgetCode p item) false).year : Bool)
          && (st.month = (mkReminder p item (planBudgetCode p item) false).month : Bool)
          && (st.scenario_id = (mkReminder p item (planBudgetCode p item) false).scenario_id : Bool)
          && (st.department = (mkReminder p item (planBudgetCode p item) false).department.getD "" : Bool))
          = none from ?_]
      · rfl
      · rw [List.find?_eq_none]
        intro st hst hpred
        simp only [mkReminder, Bool.and_eq_true, decide_eq_true_eq] at hpred
        obtain ⟨⟨⟨⟨hb, hy2⟩, hm2⟩, hsc⟩, hdp⟩ := hpred
        have hmem : st ∈ (reminderStatusRows db year month sid dept).filter
            (fun st => statusMatchesPlan st p (planBudgetCode p item)) := by
          rw [List.mem_filter]
          refine ⟨mem_reminderStatusRows.mpr ⟨hst, ?_, ?_, ?_, ?_⟩, ?_⟩
          · rw [hy2, hfacts.1]
          · rw [hm2, hfacts.2.1]
          · intro s hs2
            rw [hsc, hfacts.2.2.2.1 s hs2]
          · intro d hd2
            rw [hdp, hfacts.2.2.2.2.1 d hd2, Option.getD_some]
          · exact statusMatchesPlan_iff.mpr ⟨hb, hy2, hm2, hsc, hdp⟩
        rw [hnil] at hmem
        cases hmem
    · have hfilt := List.mem_filter.mp hstf
      have hstdb : st ∈ db.statuses := (mem_reminderStatusRows.mp hfilt.1).1
      have hmatch := statusMatchesPlan_iff.mp hfilt.2
      unfold statusLookup
      cases hfe : db.statuses.find? (fun st2 =>
          (st2.budget_code = (mkReminder p item (planBudgetCode p item) st.is_form_prepared).budget_code : Bool)
          && (st2.year = (mkReminder p item (planBudgetCode p item) st.is_form_prepared).year : Bool)
          && (st2.month = (mkReminder p item (planBudgetCode p item) st.is_form_prepared).month : Bool)
          && (st2.scenario_id = (mkReminder p item (planBudgetCode p item) st.is_form_prepared).scenario_id : Bool)
          && (st2.department = (mkReminder p item (planBudgetCode p item) st.is_form_prepared).department.getD "" : Bool)) with
      | none =>
        exfalso
        have := List.find?_eq_none.mp hfe st hstdb
        apply this
        simp only [mkReminder, Bool.and_eq_true, decide_eq_true_eq]
        exact ⟨⟨⟨⟨hmatch.1, hmatch.2.1⟩, hmatch.2.2.1⟩, hmatch.2.2.2.1⟩, hmatch.2.2.2.2⟩
      | some st2 =>
        have hpred2 := List.find?_some hfe
        have hst2db := List.mem_of_find?_eq_some hfe
        simp only [mkReminder, Bool.and_eq_true, decide_eq_true_eq] at hpred2
        obtain ⟨⟨⟨⟨hb2, hy2⟩, hm2⟩, hsc2⟩, hdp2⟩ := hpred2
        have hkeq : st2 = st := by
          apply List.inj_on_of_nodup_map hkeys hst2db hstdb
          show (st2.budget_code, st2.year, st2.month, st2.scenario_id, st2.department)
            = (st.budget_code, st.year, st.month, st.scenario_id, st.department)
          rw [hb2, hy2, hm2, hsc2, hdp2, hmatch.1, hmatch.2.1, hmatch.2.2.1,
            hmatch.2.2.2.1, hmatch.2.2.2.2]
        rw [hkeq]
        rfl

/-- C9, witness: the contract applied at a one-item, one-plan store — the
item with a positive January-2024 plan and no expense is listed, and its
annotation clause evaluates with the empty status table. -/
theorem purchase_reminders_contract_witness :
    (∃ r ∈ list_purchase_reminders { items := [⟨0, "SK01", "Laptops", none, none, none, 0⟩], plans := [⟨2024, 1, 5, 0, 0, none, none⟩] } 2024 1 none none, r.budget_item_id = 0)
    ∧ (∀ r ∈ list_purchase_reminders { items := [⟨0, "SK01", "Laptops", none, none, none, 0⟩], plans := [⟨2024, 1, 5, 0, 0, none, none⟩] } 2024 1 none none,
        r.is_form_prepared = statusLookup { items := [⟨0, "SK01", "Laptops", none, none, none, 0⟩], plans := [⟨2024, 1, 5, 0, 0, none, none⟩] } r) := by
  constructor
  · refine ((purchase_reminders_contract
        { items := [⟨0, "SK01", "Laptops", none, none, none, 0⟩],
          plans := [⟨2024, 1, 5, 0, 0, none, none⟩] } 2024 1 none none).1 ?_ 0).mpr ?_
    · intro p hp
      exact ⟨⟨0, "SK01", "Laptops", none, none, none, 0⟩, List.mem_singleton.mpr rfl, by
        rcases List.mem_singleton.mp hp with rfl
        rfl⟩
    · refine ⟨⟨2024, 1, 5, 0, 0, none, none⟩, List.mem_singleton.mpr rfl, rfl, rfl, rfl,
        by norm_num, ?_, ?_, ?_⟩
      · intro s hs
        cases hs
      · intro d hd
        cases hd
      · rintro ⟨e, he, -⟩
        cases he
  · exact (purchase_reminders_contract
      { items := [⟨0, "SK01", "Laptops", none, none, none, 0⟩],
        plans := [⟨2024, 1, 5, 0, 0, none, none⟩] } 2024 1 none none).2 (by decide)

/-- Folding decimal digits from an arbitrary start value shifts the start
by the appropriate power of ten. -/
lemma foldl_digits_shift : ∀ (l : List Char) (s : Nat),
    l.foldl (fun a c => a * 10 + (c.toNat - 48)) s = s * 10 ^ l.length + digitsVal l := by
  intro l
  induction l with
  | nil => intro s; simp [digitsVal]
  | cons c t ih =>
    intro s
    rw [List.foldl_cons, ih (s * 10 + (c.toNat - 48))]
    have h2 : digitsVal (c :: t) = (c.toNat - 48) * 10 ^ t.length + digitsVal t := by
      show (c :: t).foldl (fun a c => a * 10 + (c.toNat - 48)) 0 = _
      rw [List.foldl_cons, ih (0 * 10 + (c.toNat - 48))]
      ring_nf
    rw [h2, List.length_cons]
    ring

/-- The decimal digit character of a value below ten decodes back to it. -/
lemma digitChar_val (m : Nat) (h : m < 10) : (Nat.digitChar m).toNat - 48 = m := by
  interval_cases m <;> rfl

/-- The decimal digit character of a value below ten is a digit. -/
lemma digitChar_isDigit (m : Nat) (h : m < 10) : (Nat.digitChar m).isDigit = true := by
  interval_cases m <;> rfl

/-- The core digit expansion is faithful: its decimal value recovers the
encoded number (shifted over the accumulator). -/
lemma toDigitsCore_val : ∀ (fuel n : Nat) (acc : List Char), n < 10 ^ fuel →
    digitsVal (Nat.toDigitsCore 10 fuel n acc) = n * 10 ^ acc.length + digitsVal acc := by
  intro fuel
  induction fuel with
  | zero =>
    intro n acc h
    have hn : n = 0 := by
      have h1 := h
      simp [pow_zero] at h1
      omega
    subst hn
    rw [show Nat.toDigitsCore 10 0 0 acc = acc from rfl]
    simp
  | succ fuel ih =>
    intro n acc h
    rw [show Nat.toDigitsCore 10 (fuel + 1) n acc =
        (if n / 10 = 0 then Nat.digitChar (n % 10) :: acc
         else Nat.toDigitsCore 10 fuel (n / 10) (Nat.digitChar (n % 10) :: acc)) from rfl]
    have hm : n % 10 < 10 := Nat.mod_lt n (by norm_num)
    have hd : digitsVal (Nat.digitChar (n % 10) :: acc)
        = (n % 10) * 10 ^ acc.length + digitsVal acc := by
      show (Nat.digitChar (n % 10) :: acc).foldl (fun a c => a * 10 + (c.toNat - 48)) 0 = _
      rw [List.foldl_cons, foldl_digits_shift]
      rw [digitChar_val _ hm]
      norm_num
    by_cases h0 : n / 10 = 0
    · rw [if_pos h0, hd]
      have hn : n % 10 = n := by omega
      rw [hn]
    · rw [if_neg h0]
      have hlt : n / 10 < 10 ^ fuel := by
        rw [pow_succ] at h
        omega
      rw [ih (n / 10) (Nat.digitChar (n % 10) :: acc) hlt]
      rw [hd, List.length_cons]
      have hnm : n / 10 * 10 + n % 10 = n := by
        have h10 := Nat.div_add_mod n 10
        omega
      calc n / 10 * 10 ^ (acc.length + 1) + ((n % 10) * 10 ^ acc.length + digitsVal acc)
          = (n / 10 * 10 + n % 10) * 10 ^ acc.length + digitsVal acc := by ring
        _ = n * 10 ^ acc.length + digitsVal acc := by rw [hnm]

/-- `Nat.repr` round-trips through `digitsVal`. -/
lemma digitsVal_repr (n : Nat) : digitsVal (Nat.repr n).data = n := by
  have hb : n < 10 ^ (n + 1) :=
    lt_of_lt_of_le (Nat.lt_pow_self (by norm_num) n)
      (Nat.pow_le_pow_right (by norm_num) (Nat.le_succ n))
  have h := toDigitsCore_val (n + 1) n [] hb
  rw [show (Nat.repr n).data = Nat.toDigitsCore 10 (n + 1) n [] from rfl]
  simpa using h

/-- Distinct numbers have distinct decimal representations. -/
lemma repr_injective {a b : Nat} (h : Nat.repr a = Nat.repr b) : a = b := by
  rw [← digitsVal_repr a, ← digitsVal_repr b, h]

/-- Every character produced by the core digit expansion is a digit or
comes from the accumulator. -/
lemma toDigitsCore_chars : ∀ (fuel n : Nat) (acc : List Char),
    ∀ c ∈ Nat.toDigitsCore 10 fuel n acc, c ∈ acc ∨ c.isDigit = true := by
  intro fuel
  induction fuel with
  | zero =>
    intro n acc c hc
    rw [show Nat.toDigitsCore 10 0 n acc = acc from rfl] at hc
    exact Or.inl hc
  | succ fuel ih =>
    intro n acc c hc
    rw [show Nat.toDigitsCore 10 (fuel + 1) n acc =
        (if n / 10 = 0 then Nat.digitChar (n % 10) :: acc
         else Nat.toDigitsCore 10 fuel (n / 10) (Nat.digitChar (n % 10) :: acc)) from rfl] at hc
    by_cases h0 : n / 10 = 0
    · rw [if_pos h0] at hc
      rcases List.mem_cons.1 hc with h | h
      · exact Or.inr (h ▸ digitChar_isDigit _ (Nat.mod_lt n (by norm_num)))
      · exact Or.inl h
    · rw [if_neg h0] at hc
      rcases ih (n / 10) (Nat.digitChar (n % 10) :: acc) c hc with h | h
      · rcases List.mem_cons.1 h with h2 | h2
        · exact Or.inr (h2 ▸ digitChar_isDigit _ (Nat.mod_lt n (by norm_num)))
        · exact Or.inl h2
      · exact Or.inr h

/-- Every character of `Nat.repr` is a decimal digit. -/
lemma repr_chars_digit (n : Nat) : ∀ c ∈ (Nat.repr n).data, c.isDigit = true := by
  intro c hc
  rw [show (Nat.repr n).data = Nat.toDigitsCore 10 (n + 1) n [] from rfl] at hc
  rcases toDigitsCore_chars (n + 1) n [] c hc with h | h
  · exact absurd h (List.not_mem_nil c)
  · exact h

/-- `Nat.repr` never contains a dash. -/
lemma repr_no_dash (n : Nat) : ∀ c ∈ (Nat.repr n).data, ¬ c = '-' := by
  intro c hc heq
  have h := repr_chars_digit n c hc
  rw [heq] at h
  exact absurd h (by decide)

/-- Character-level form of an `SKxx` code. -/
lemma skCode_data (n : Nat) : (skCode n).data
    = 'S' :: 'K' :: (if n < 10 then '0' :: (Nat.repr n).data else (Nat.repr n).data) := by
  unfold skCode
  by_cases h : n < 10
  · rw [if_pos h, if_pos h]
    rw [String.data_append, String.data_append]
    rfl
  · rw [if_neg h, if_neg h]
    rw [String.data_append]
    rfl

/-- Character-level form of a temporary code. -/
lemma tmpCode_data (x : BudgetItem) : (tmpCode x).data
    = 'T' :: 'M' :: 'P' :: '-' :: ((Nat.repr x.id).data ++ '-' :: x.code.data) := by
  unfold tmpCode
  rw [String.data_append, String.data_append, String.data_append]
  rw [List.append_assoc, List.append_assoc]
  rfl

/-- `skVal` recovers the index from an `SKxx` code. -/
lemma skVal_skCode (n : Nat) : skVal (skCode n) = n := by
  unfold skVal
  rw [skCode_data]
  by_cases h : n < 10
  · rw [if_pos h]
    show digitsVal ('0' :: (Nat.repr n).data) = n
    rw [show digitsVal ('0' :: (Nat.repr n).data) = digitsVal (Nat.repr n).data from rfl]
    exact digitsVal_repr n
  · rw [if_neg h]
    exact digitsVal_repr n

/-- Distinct positions receive distinct `SKxx` codes. -/
lemma skCode_inj {a b : Nat} (h : skCode a = skCode b) : a = b := by
  rw [← skVal_skCode a, ← skVal_skCode b, h]

/-- A run of non-dash characters followed by a dash is cut exactly at the
dash. -/
lemma takeWhile_until_dash (p : Char → Bool) : ∀ (l : List Char) (c : Char) (r : List Char),
    (∀ a ∈ l, p a = true) → p c = false → (l ++ c :: r).takeWhile p = l := by
  intro l
  induction l with
  | nil => intro c r _ hc; simp [List.takeWhile_cons, hc]
  | cons a t ih =>
    intro c r h hc
    rw [List.cons_append, List.takeWhile_cons, h a (List.mem_cons_self a t)]
    rw [ih c r (fun x hx => h x (List.mem_cons_of_mem a hx)) hc]
    simp

/-- `tmpIdVal` recovers the item id from a temporary code. -/
lemma tmpIdVal_tmpCode (x : BudgetItem) : tmpIdVal (tmpCode x) = x.id := by
  unfold tmpIdVal
  rw [tmpCode_data]
  rw [show List.drop 4
        ('T' :: 'M' :: 'P' :: '-' :: ((Nat.repr x.id).data ++ '-' :: x.code.data))
      = (Nat.repr x.id).data ++ '-' :: x.code.data from rfl]
  rw [takeWhile_until_dash nonDash (Nat.repr x.id).data '-' x.code.data
        (fun a ha => by unfold nonDash; exact decide_eq_true (repr_no_dash x.id a ha))
        (by decide)]
  exact digitsVal_repr x.id

/-- Temporary codes of items with distinct ids are distinct. -/
lemma tmpCode_inj_id {x y : BudgetItem} (h : tmpCode x = tmpCode y) : x.id = y.id := by
  rw [← tmpIdVal_tmpCode x, ← tmpIdVal_tmpCode y, h]

/-- A final `SKxx` code is never a temporary code. -/
lemma skCode_ne_tmpCode (n : Nat) (x : BudgetItem) : ¬ skCode n = tmpCode x := by
  intro h
  have hd := congrArg String.data h
  rw [skCode_data, tmpCode_data] at hd
  injection hd with h1 _
  exact absurd h1 (by decide)

/-- Every temporary code carries the `TMP-` tag. -/
lemma tmpCode_has_tag (x : BudgetItem) : ∃ t, "TMP-".data ++ t = (tmpCode x).data := by
  refine ⟨(Nat.repr x.id).data ++ '-' :: x.code.data, ?_⟩
  rw [tmpCode_data]
  rfl

/-- An assignment run never changes an item's id. -/
lemma applyUpd_id (g : BudgetItem × String → String) (ps : List (BudgetItem × String))
    (j : BudgetItem) : (applyUpd g ps j).id = j.id := by
  unfold applyUpd
  cases ps.find? (fun q => q.1.id = j.id) <;> rfl

/-- An assignment run never changes an item's creation time. -/
lemma applyUpd_created (g : BudgetItem × String → String) (ps : List (BudgetItem × String))
    (j : BudgetItem) : (applyUpd g ps j).created_at = j.created_at := by
  unfold applyUpd
  cases ps.find? (fun q => q.1.id = j.id) <;> rfl

/-- An item matched by an assignment gets the assigned code. -/
lemma applyUpd_code_of_find? (g : BudgetItem × String → String)
    {ps : List (BudgetItem × String)} {j : BudgetItem} {q : BudgetItem × String}
    (h : ps.find? (fun q => q.1.id = j.id) = some q) :
    applyUpd g ps j = { j with code := g q } := by
  unfold applyUpd
  rw [h]

/-- An item matched by no assignment is untouched. -/
lemma applyUpd_of_none {g : BudgetItem × String → String}
    {ps : List (BudgetItem × String)} {j : BudgetItem}
    (h : ps.find? (fun q => q.1.id = j.id) = none) :
    applyUpd g ps j = j := by
  unfold applyUpd
  rw [h]

/-- Two assignment runs drawn from the same list collapse into the second
run (the first one only ever touches the code field). -/
lemma applyUpd_applyUpd (g1 g2 : BudgetItem × String → String)
    (ps : List (BudgetItem × String)) (j : BudgetItem) :
    applyUpd g2 ps (applyUpd g1 ps j) = applyUpd g2 ps j := by
  cases h : ps.find? (fun q => q.1.id = j.id) with
  | none =>
    rw [applyUpd_of_none h, applyUpd_of_none h]
  | some q =>
    rw [applyUpd_code_of_find? g1 h]
    rw [applyUpd_code_of_find? g2
      (show ps.find? (fun q' => q'.1.id = ({ j with code := g1 q } : BudgetItem).id) = some q
        from h)]
    rw [applyUpd_code_of_find? g2 h]

/-- A left fold of single-item code writes over a duplicate-free
assignment list acts as a pointwise map. -/
lemma foldl_setCode_eq_map (g : BudgetItem × String → String) :
    ∀ (ps : List (BudgetItem × String)) (l : List BudgetItem),
    (ps.map (fun q => q.1.id)).Nodup →
    ps.foldl (fun acc q => setCode acc q.1.id (g q)) l = l.map (applyUpd g ps) := by
  intro ps
  induction ps with
  | nil =>
    intro l _
    rw [List.foldl_nil]
    have h : ∀ j ∈ l, applyUpd g [] j = j := fun j _ => applyUpd_of_none List.find?_nil
    rw [List.map_congr_left h, List.map_id']
  | cons q ps ih =>
    intro l hnd
    rw [List.map_cons] at hnd
    have h0 := (List.nodup_cons.1 hnd).1
    have htl := (List.nodup_cons.1 hnd).2
    rw [List.foldl_cons, ih (setCode l q.1.id (g q)) htl]
    rw [setCode, List.map_map]
    apply List.map_congr_left
    intro j _
    show applyUpd g ps (if j.id = q.1.id then { j with code := g q } else j)
        = applyUpd g (q :: ps) j
    by_cases hj : j.id = q.1.id
    · rw [if_pos hj]
      have hnone : ps.find? (fun q' => q'.1.id = ({ j with code := g q } : BudgetItem).id)
          = none := by
        apply List.find?_eq_none.2
        intro x hx
        simp only [decide_eq_true_eq]
        intro hxid
        exact h0 (List.mem_map.2 ⟨x, hx, by rw [hxid, hj]⟩)
      rw [applyUpd_of_none hnone]
      rw [applyUpd_code_of_find? g
        (show (q :: ps).find? (fun q' => q'.1.id = j.id) = some q from
          List.find?_cons_of_pos ps (by simp [hj]))]
    · rw [if_neg hj]
      unfold applyUpd
      rw [List.find?_cons_of_neg ps (by simp; intro hc; exact hj hc.symm)]

/-- Looking a duplicate-free assignment list's pending sublist up by item
id finds exactly the item's own assignment, when the item needs renaming,
and nothing otherwise. -/
lemma find?_filter_ne : ∀ (ps : List (BudgetItem × String)),
    (ps.map (fun q => q.1.id)).Nodup → ∀ (it : BudgetItem) (c : String), (it, c) ∈ ps →
    (ps.filter (fun q => q.1.code ≠ q.2)).find? (fun q => q.1.id = it.id)
      = if it.code = c then none else some (it, c) := by
  intro ps
  induction ps with
  | nil =>
    intro _ it c hm
    exact absurd hm (List.not_mem_nil _)
  | cons q0 ps ih =>
    intro hnd it c hm
    rw [List.map_cons] at hnd
    have h0 := (List.nodup_cons.1 hnd).1
    have htl := (List.nodup_cons.1 hnd).2
    rcases List.mem_cons.1 hm with heq | hm2
    · subst heq
      by_cases hic : it.code = c
      · rw [if_pos hic]
        have hcf : ((it, c) :: ps).filter (fun q => q.1.code ≠ q.2)
            = ps.filter (fun q => q.1.code ≠ q.2) := by
          rw [List.filter_cons]
          simp [hic]
        rw [hcf]
        apply List.find?_eq_none.2
        intro x hx
        simp only [decide_eq_true_eq]
        intro hxid
        exact h0 (List.mem_map.2 ⟨x, List.mem_of_mem_filter hx, hxid⟩)
      · rw [if_neg hic]
        have hcf : ((it, c) :: ps).filter (fun q => q.1.code ≠ q.2)
            = (it, c) :: ps.filter (fun q => q.1.code ≠ q.2) := by
          rw [List.filter_cons]
          simp [hic]
        rw [hcf]
        exact List.find?_cons_of_pos _ (by simp)
    · have hne : ¬ q0.1.id = it.id := by
        intro he
        exact h0 (by rw [he]; exact List.mem_map.2 ⟨(it, c), hm2, rfl⟩)
      by_cases hq0 : q0.1.code = q0.2
      · have hcf : (q0 :: ps).filter (fun q => q.1.code ≠ q.2)
            = ps.filter (fun q => q.1.code ≠ q.2) := by
          rw [List.filter_cons]
          simp [hq0]
        rw [hcf]
        exact ih htl it c hm2
      · have hcf : (q0 :: ps).filter (fun q => q.1.code ≠ q.2)
            = q0 :: ps.filter (fun q => q.1.code ≠ q.2) := by
          rw [List.filter_cons]
          simp [hq0]
        rw [hcf]
        rw [List.find?_cons_of_neg _ (by simp [hne])]
        exact ih htl it c hm2

/-- The assignment list enumerates the creation-order item list. -/
lemma assignments_fst (items : List BudgetItem) :
    (assignmentsOf items).map (fun q => q.1) = sortedItems items := by
  unfold assignmentsOf
  rw [List.map_map]
  exact List.enum_map_snd _

/-- The assigned codes are exactly `SK01 .. SKNN` in order. -/
lemma assignments_snd (items : List BudgetItem) :
    (assignmentsOf items).map (fun q => q.2)
      = (List.range (sortedItems items).length).map (fun k => skCode (k + 1)) := by
  unfold assignmentsOf
  rw [List.map_map]
  rw [show ((fun (q : BudgetItem × String) => q.2)
        ∘ (fun (p : Nat × BudgetItem) => (p.2, skCode (p.1 + 1))))
      = ((fun k => skCode (k + 1)) ∘ Prod.fst) from rfl]
  rw [← List.map_map]
  rw [List.enum_map_fst]

/-- The creation-order sort is a permutation of the table. -/
lemma sorted_perm (items : List BudgetItem) : (sortedItems items).Perm items :=
  List.perm_insertionSort itemLe items

/-- The creation-order sort is sorted. -/
lemma sorted_sortedItems (items : List BudgetItem) :
    List.Sorted itemLe (sortedItems items) :=
  List.sorted_insertionSort itemLe items

/-- Sorting preserves distinctness of ids. -/
lemma sorted_ids_nodup {items : List BudgetItem}
    (hid : (items.map (fun i => i.id)).Nodup) :
    ((sortedItems items).map (fun i => i.id)).Nodup :=
  ((sorted_perm items).map _).nodup_iff.2 hid

/-- The assignment list's item ids are the sorted table's ids. -/
lemma assignments_ids (items : List BudgetItem) :
    (assignmentsOf items).map (fun q => q.1.id) = (sortedItems items).map (fun i => i.id) := by
  rw [← assignments_fst items, List.map_map]
  rfl

/-- Distinct table ids yield distinct assignment ids. -/
lemma assignments_ids_nodup {items : List BudgetItem}
    (hid : (items.map (fun i => i.id)).Nodup) :
    ((assignmentsOf items).map (fun q => q.1.id)).Nodup := by
  rw [assignments_ids]
  exact sorted_ids_nodup hid

/-- Pending renames are assignments. -/
lemma pending_sub (items : List BudgetItem) :
    ∀ q ∈ pendingOf items, q ∈ assignmentsOf items :=
  fun _ hq => List.mem_of_mem_filter hq

/-- Distinct table ids yield distinct pending-rename ids. -/
lemma pending_ids_nodup {items : List BudgetItem}
    (hid : (items.map (fun i => i.id)).Nodup) :
    ((pendingOf items).map (fun q => q.1.id)).Nodup :=
  (assignments_ids_nodup hid).sublist ((List.filter_sublist _).map _)

/-- An assignment's item sits in the table. -/
lemma mem_assignments_fst {items : List BudgetItem} {q : BudgetItem × String}
    (hq : q ∈ assignmentsOf items) : q.1 ∈ items := by
  have h : q.1 ∈ (assignmentsOf items).map (fun q => q.1) := List.mem_map.2 ⟨q, hq, rfl⟩
  rw [assignments_fst] at h
  exact (sorted_perm items).mem_iff.1 h

/-- Every table item has an assignment. -/
lemma assignments_exists {items : List BudgetItem} {x : BudgetItem} (hx : x ∈ items) :
    ∃ c, (x, c) ∈ assignmentsOf items := by
  have hx2 : x ∈ (assignmentsOf items).map (fun q => q.1) := by
    rw [assignments_fst]
    exact (sorted_perm items).mem_iff.2 hx
  rcases List.mem_map.1 hx2 with ⟨q, hq, hq1⟩
  refine ⟨q.2, ?_⟩
  rw [← hq1]
  exact hq

/-- The assigned codes are pairwise distinct. -/
lemma assignments_snd_nodup (items : List BudgetItem) :
    ((assignmentsOf items).map (fun q => q.2)).Nodup := by
  rw [assignments_snd]
  apply List.Nodup.map
  · intro a b h
    have := skCode_inj h
    omega
  · exact List.nodup_range _

/-- An assignment whose item id matches a table item belongs to that very
item (table ids being distinct). -/
lemma mem_assignments_eq {items : List BudgetItem}
    (hid : (items.map (fun i => i.id)).Nodup) {q : BudgetItem × String}
    (hq : q ∈ assignmentsOf items) {j : BudgetItem} (hj : j ∈ items)
    (hij : q.1.id = j.id) : q.1 = j :=
  List.inj_on_of_nodup_map hid (mem_assignments_fst hq) hj hij

/-- After the final-rename run, every assigned item carries its assigned
code (whether it was pending or already correct). -/
lemma applyUpd_final_code {items : List BudgetItem}
    (hid : (items.map (fun i => i.id)).Nodup) :
    ∀ q ∈ assignmentsOf items,
      (applyUpd (fun q => q.2) (pendingOf items) q.1).code = q.2 := by
  intro q hq
  have hfind := find?_filter_ne (assignmentsOf items) (assignments_ids_nodup hid) q.1 q.2 hq
  by_cases hc : q.1.code = q.2
  · rw [if_pos hc] at hfind
    rw [applyUpd_of_none
      (show (pendingOf items).find? (fun q' => q'.1.id = q.1.id) = none from hfind)]
    exact hc
  · rw [if_neg hc] at hfind
    rw [applyUpd_code_of_find? (fun q => q.2)
      (show (pendingOf items).find? (fun q' => q'.1.id = q.1.id) = some (q.1, q.2) from hfind)]

/-- Phase one is a pointwise map over the table. -/
lemma foldl_phase1 {ps : List (BudgetItem × String)}
    (hnd : (ps.map (fun q => q.1.id)).Nodup) (l : List BudgetItem) :
    ps.foldl phase1Step l = l.map (applyUpd (fun q => tmpCode q.1) ps) :=
  foldl_setCode_eq_map _ ps l hnd

/-- Phase two is a pointwise map over the table. -/
lemma foldl_phase2 {ps : List (BudgetItem × String)}
    (hnd : (ps.map (fun q => q.1.id)).Nodup) (l : List BudgetItem) :
    ps.foldl phase2Step l = l.map (applyUpd (fun q => q.2) ps) :=
  foldl_setCode_eq_map _ ps l hnd

/-- The resequencer's returned table is the pointwise final-code rewrite
of the input table. -/
lemma resequence_fst {items : List BudgetItem}
    (hid : (items.map (fun i => i.id)).Nodup) :
    (resequence_budget_codes items).1
      = items.map (applyUpd (fun q => q.2) (pendingOf items)) := by
  unfold resequence_budget_codes
  by_cases hp : (pendingOf items).isEmpty = true
  · rw [if_pos hp]
    have hnil : pendingOf items = [] := by
      rwa [List.isEmpty_iff] at hp
    rw [hnil]
    have h : ∀ j ∈ items, applyUpd (fun q => q.2) ([] : List (BudgetItem × String)) j = j :=
      fun j _ => applyUpd_of_none List.find?_nil
    rw [List.map_congr_left h, List.map_id']
  · rw [if_neg hp]
    show (pendingOf items).foldl phase2Step ((pendingOf items).foldl phase1Step items) = _
    rw [foldl_phase1 (pending_ids_nodup hid), foldl_phase2 (pending_ids_nodup hid)]
    rw [List.map_map]
    apply List.map_congr_left
    intro j _
    exact applyUpd_applyUpd _ _ _ j

/-- Two sorted arrangements of the same multiset of items with distinct
ids coincide (the creation-order relation is antisymmetric on ids). -/
lemma eq_of_perm_sorted : ∀ (l1 l2 : List BudgetItem), l1.Perm l2 →
    l1.Sorted itemLe → l2.Sorted itemLe → (l1.map (fun i => i.id)).Nodup → l1 = l2 := by
  intro l1
  induction l1 with
  | nil =>
    intro l2 hp _ _ _
    exact (hp.symm.eq_nil).symm
  | cons a t ih =>
    intro l2 hp hs1 hs2 hnd
    cases l2 with
    | nil => exact absurd hp.eq_nil (by simp)
    | cons b t2 =>
      have hb1 : b ∈ a :: t := hp.mem_iff.2 (List.mem_cons_self b t2)
      have ha2 : a ∈ b :: t2 := hp.mem_iff.1 (List.mem_cons_self a t)
      have heq : a = b := by
        rcases List.mem_cons.1 hb1 with h | hbt
        · exact h.symm
        · rcases List.mem_cons.1 ha2 with h | hat
          · exact h
          · have h1 : itemLe a b := List.rel_of_sorted_cons hs1 b hbt
            have h2 : itemLe b a := List.rel_of_sorted_cons hs2 a hat
            have hkey : a.id = b.id := by
              unfold itemLe at h1 h2
              omega
            exact List.inj_on_of_nodup_map hnd (List.mem_cons_self a t) hb1 hkey
      subst heq
      have hnd2 : (t.map (fun i => i.id)).Nodup := by
        rw [List.map_cons] at hnd
        exact (List.nodup_cons.1 hnd).2
      rw [ih t2 hp.cons_inv hs1.of_cons hs2.of_cons hnd2]

/-- Sorting commutes with any id- and creation-time-preserving rewrite of
a table with distinct ids. -/
lemma sortedItems_map {items : List BudgetItem} (f : BudgetItem → BudgetItem)
    (hc : ∀ j, (f j).created_at = j.created_at) (hi : ∀ j, (f j).id = j.id)
    (hid : (items.map (fun i => i.id)).Nodup) :
    sortedItems (items.map f) = (sortedItems items).map f := by
  apply eq_of_perm_sorted
  · exact (sorted_perm (items.map f)).trans ((sorted_perm items).map f).symm
  · exact sorted_sortedItems _
  · exact List.Pairwise.map f
      (fun x y hxy => by
        unfold itemLe at hxy ⊢
        rw [hc x, hc y, hi x, hi y]
        exact hxy)
      (sorted_sortedItems items)
  · apply sorted_ids_nodup
    rw [List.map_map]
    show (items.map (fun j => (f j).id)).Nodup
    rw [List.map_congr_left (fun j (_ : j ∈ items) => hi j)]
    exact hid

/-- Every entry of a scan is a fold over some leading run of the inputs. -/
lemma mem_scanl_foldl {α β : Type} (f : α → β → α) :
    ∀ (l : List β) (b s : α), s ∈ List.scanl f b l → ∃ k, s = (l.take k).foldl f b := by
  intro l
  induction l with
  | nil =>
    intro b s hs
    rw [List.scanl_nil, List.mem_singleton] at hs
    exact ⟨0, hs⟩
  | cons x xs ih =>
    intro b s hs
    rw [List.scanl_cons] at hs
    rcases List.mem_cons.1 hs with h | h
    · exact ⟨0, h⟩
    · rcases ih (f b x) s h with ⟨k, hk⟩
      refine ⟨k + 1, ?_⟩
      rw [List.take_succ_cons, List.foldl_cons]
      exact hk

/-- The codes `SK01 .. SKNN` are pairwise distinct. -/
lemma expected_nodup (n : Nat) :
    ((List.range n).map (fun k => skCode (k + 1))).Nodup :=
  List.Nodup.map (fun a b h => by have := skCode_inj h; omega) (List.nodup_range n)

/-- Mapping items to their assigned codes over the assignment list equals
the assigned-code column, once every item carries its assigned code. -/
lemma map_assignments_codes (F : BudgetItem → BudgetItem) :
    ∀ (As : List (BudgetItem × String)), (∀ q ∈ As, (F q.1).code = q.2) →
    ((As.map (fun q => q.1)).map F).map (fun i => i.code) = As.map (fun q => q.2) := by
  intro As
  induction As with
  | nil => intro _; rfl
  | cons q qs ih =>
    intro h
    simp only [List.map_cons]
    rw [h q (List.mem_cons_self q qs), ih (fun x hx => h x (List.mem_cons_of_mem q hx))]

/-- During phase one, no two items ever share a code: renamed items carry
temporary codes keyed by their distinct ids, untouched items carry their
distinct original codes, and the `TMP-` tag separates the two groups. -/
lemma nodup_state_phase1 {items : List BudgetItem}
    (hid : (items.map (fun i => i.id)).Nodup)
    (hcode : (items.map (fun i => i.code)).Nodup)
    (htag : ∀ i ∈ items, ∀ t, ¬ "TMP-".data ++ t = i.code.data)
    (ps : List (BudgetItem × String)) (hsub : ∀ q ∈ ps, q ∈ pendingOf items) :
    ((items.map (applyUpd (fun q => tmpCode q.1) ps)).map (fun i => i.code)).Nodup := by
  rw [List.map_map]
  apply List.Nodup.map_on
  · intro x hx y hy hxy
    simp only [Function.comp_apply] at hxy
    cases hfx : ps.find? (fun q => q.1.id = x.id) with
    | some qx =>
      have hx1 : qx.1 = x :=
        mem_assignments_eq hid
          (pending_sub items qx (hsub qx (List.mem_of_find?_eq_some hfx))) hx
          (by simpa using List.find?_some hfx)
      rw [applyUpd_code_of_find? (fun q => tmpCode q.1) hfx] at hxy
      cases hfy : ps.find? (fun q => q.1.id = y.id) with
      | some qy =>
        have hy1 : qy.1 = y :=
          mem_assignments_eq hid
            (pending_sub items qy (hsub qy (List.mem_of_find?_eq_some hfy))) hy
            (by simpa using List.find?_some hfy)
        rw [applyUpd_code_of_find? (fun q => tmpCode q.1) hfy] at hxy
        have h : tmpCode qx.1 = tmpCode qy.1 := hxy
        rw [hx1, hy1] at h
        exact List.inj_on_of_nodup_map hid hx hy (tmpCode_inj_id h)
      | none =>
        rw [applyUpd_of_none hfy] at hxy
        have h : tmpCode qx.1 = y.code := hxy
        rw [hx1] at h
        rcases tmpCode_has_tag x with ⟨t, ht⟩
        exact absurd (ht.trans (congrArg String.data h)) (htag y hy t)
    | none =>
      rw [applyUpd_of_none hfx] at hxy
      cases hfy : ps.find? (fun q => q.1.id = y.id) with
      | some qy =>
        have hy1 : qy.1 = y :=
          mem_assignments_eq hid
            (pending_sub items qy (hsub qy (List.mem_of_find?_eq_some hfy))) hy
            (by simpa using List.find?_some hfy)
        rw [applyUpd_code_of_find? (fun q => tmpCode q.1) hfy] at hxy
        have h : x.code = tmpCode qy.1 := hxy
        rw [hy1] at h
        rcases tmpCode_has_tag y with ⟨t, ht⟩
        exact absurd (ht.trans (congrArg String.data h.symm)) (htag x hx t)
      | none =>
        rw [applyUpd_of_none hfy] at hxy
        exact List.inj_on_of_nodup_map hcode hx hy hxy
  · exact List.Nodup.of_map _ hid

/-- Code carried by an item after two assignment runs: the second run's
assignment wins, otherwise the first run's outcome stands. -/
lemma applyUpd_comp_code (g2 g1 : BudgetItem × String → String)
    (ps2 ps1 : List (BudgetItem × String)) (j : BudgetItem) :
    (applyUpd g2 ps2 (applyUpd g1 ps1 j)).code =
      (match ps2.find? (fun q => q.1.id = j.id) with
       | some q => g2 q
       | none => (applyUpd g1 ps1 j).code) := by
  cases h1 : ps1.find? (fun q => q.1.id = j.id) with
  | none =>
    rw [applyUpd_of_none h1]
    cases h2 : ps2.find? (fun q => q.1.id = j.id) with
    | none => rw [applyUpd_of_none h2]
    | some q2 => rw [applyUpd_code_of_find? g2 h2]
  | some q1 =>
    rw [applyUpd_code_of_find? g1 h1]
    cases h2 : ps2.find? (fun q => q.1.id = j.id) with
    | none =>
      rw [applyUpd_of_none
        (show ps2.find? (fun q => q.1.id = ({ j with code := g1 q1 } : BudgetItem).id) = none
          from h2)]
    | some q2 =>
      rw [applyUpd_code_of_find? g2
        (show ps2.find? (fun q => q.1.id = ({ j with code := g1 q1 } : BudgetItem).id) = some q2
          from h2)]

/-- Every assigned code is of the `SKxx` form. -/
lemma mem_snd_skCode {items : List BudgetItem} {q : BudgetItem × String}
    (hq : q ∈ assignmentsOf items) : ∃ k, q.2 = skCode (k + 1) := by
  have h : q.2 ∈ (assignmentsOf items).map (fun q => q.2) := List.mem_map.2 ⟨q, hq, rfl⟩
  rw [assignments_snd] at h
  rcases List.mem_map.1 h with ⟨k, _, hk⟩
  exact ⟨k, hk.symm⟩

/-- During phase two an item carries either its assigned `SKxx` code
(already renamed, or never pending) or its temporary code (still waiting). -/
lemma phase2_code_classify {items : List BudgetItem}
    (hid : (items.map (fun i => i.id)).Nodup)
    {ps : List (BudgetItem × String)} (hsub : ∀ q ∈ ps, q ∈ pendingOf items)
    {x : BudgetItem} (hx : x ∈ items) :
    (∃ c, (x, c) ∈ assignmentsOf items ∧
      (applyUpd (fun q => q.2) ps
        (applyUpd (fun q => tmpCode q.1) (pendingOf items) x)).code = c)
    ∨ (applyUpd (fun q => q.2) ps
        (applyUpd (fun q => tmpCode q.1) (pendingOf items) x)).code = tmpCode x := by
  cases hf2 : ps.find? (fun q => q.1.id = x.id) with
  | some q2 =>
    have hq2A : q2 ∈ assignmentsOf items :=
      pending_sub items q2 (hsub q2 (List.mem_of_find?_eq_some hf2))
    have h21 : q2.1 = x :=
      mem_assignments_eq hid hq2A hx (by simpa using List.find?_some hf2)
    left
    refine ⟨q2.2, ?_, ?_⟩
    · rw [← h21]
      exact hq2A
    · rw [applyUpd_comp_code, hf2]
  | none =>
    cases hf1 : (pendingOf items).find? (fun q => q.1.id = x.id) with
    | some q1 =>
      have h11 : q1.1 = x :=
        mem_assignments_eq hid (pending_sub items q1 (List.mem_of_find?_eq_some hf1)) hx
          (by simpa using List.find?_some hf1)
      right
      rw [applyUpd_comp_code, hf2]
      rw [applyUpd_code_of_find? (fun q => tmpCode q.1) hf1]
      show tmpCode q1.1 = tmpCode x
      rw [h11]
    | none =>
      rcases assignments_exists hx with ⟨cx, hcx⟩
      have hfind : (pendingOf items).find? (fun q => q.1.id = x.id)
          = if x.code = cx then none else some (x, cx) :=
        find?_filter_ne (assignmentsOf items) (assignments_ids_nodup hid) x cx hcx
      by_cases hc : x.code = cx
      · left
        refine ⟨cx, hcx, ?_⟩
        rw [applyUpd_comp_code, hf2, applyUpd_of_none hf1]
        exact hc
      · rw [if_neg hc, hf1] at hfind
        exact absurd hfind (by simp)

/-- During phase two, no two items ever share a code: renamed and
never-pending items carry distinct `SKxx` codes, still-waiting items carry
temporary codes keyed by their distinct ids, and the two shapes never
coincide. -/
lemma nodup_state_phase2 {items : List BudgetItem}
    (hid : (items.map (fun i => i.id)).Nodup)
    (ps : List (BudgetItem × String)) (hsub : ∀ q ∈ ps, q ∈ pendingOf items) :
    ((items.map ((applyUpd (fun q => q.2) ps)
        ∘ (applyUpd (fun q => tmpCode q.1) (pendingOf items)))).map
      (fun i => i.code)).Nodup := by
  rw [List.map_map]
  apply List.Nodup.map_on
  · intro x hx y hy hxy
    simp only [Function.comp_apply] at hxy
    rcases phase2_code_classify hid hsub hx with ⟨cx, hcxA, hcx⟩ | hcx <;>
      rcases phase2_code_classify hid hsub hy with ⟨cy, hcyA, hcy⟩ | hcy
    · rw [hcx, hcy] at hxy
      have h := List.inj_on_of_nodup_map (assignments_snd_nodup items) hcxA hcyA hxy
      exact congrArg Prod.fst h
    · rw [hcx, hcy] at hxy
      rcases mem_snd_skCode hcxA with ⟨k, hk⟩
      have hk2 : cx = skCode (k + 1) := hk
      rw [hk2] at hxy
      exact absurd hxy (skCode_ne_tmpCode _ _)
    · rw [hcx, hcy] at hxy
      rcases mem_snd_skCode hcyA with ⟨k, hk⟩
      have hk2 : cy = skCode (k + 1) := hk
      rw [hk2] at hxy
      exact absurd hxy.symm (skCode_ne_tmpCode _ _)
    · rw [hcx, hcy] at hxy
      exact List.inj_on_of_nodup_map hid hx hy (tmpCode_inj_id hxy)
  · exact List.Nodup.of_map _ hid

/-- A table with no pending renames is returned untouched with count 0. -/
lemma resequence_of_pending_nil {l : List BudgetItem} (h : pendingOf l = []) :
    resequence_budget_codes l = (l, 0) := by
  unfold resequence_budget_codes
  rw [h]
  rfl

/-- After one resequencing run nothing is pending any more. -/
lemma pending_final_nil {items : List BudgetItem}
    (hid : (items.map (fun i => i.id)).Nodup) :
    pendingOf ((resequence_budget_codes items).1) = [] := by
  have hall : ∀ q ∈ assignmentsOf ((resequence_budget_codes items).1), q.1.code = q.2 := by
    intro q hq
    rw [resequence_fst hid] at hq
    unfold assignmentsOf at hq
    rw [sortedItems_map (applyUpd (fun q => q.2) (pendingOf items))
          (fun j => applyUpd_created _ _ j) (fun j => applyUpd_id _ _ j) hid,
        List.enum_map, List.map_map] at hq
    rcases List.mem_map.1 hq with ⟨p, hp, hpq⟩
    rw [← hpq]
    show (applyUpd (fun q => q.2) (pendingOf items) p.2).code = skCode (p.1 + 1)
    exact applyUpd_final_code hid (p.2, skCode (p.1 + 1))
      (by unfold assignmentsOf; exact List.mem_map.2 ⟨p, hp, rfl⟩)
  unfold pendingOf
  apply List.filter_eq_nil_iff.2
  intro q hq
  simp only [decide_eq_true_eq, ne_eq, not_not]
  exact hall q hq

/-- C7: over a budget-item table with distinct ids, distinct codes, and no
pre-existing `TMP-`-tagged code, resequencing N items leaves, in creation
order, exactly the dense code set `SK01 .. SKNN` with no duplicates; no two
items ever share a code in any intermediate state of the two-phase rename;
an immediate second run returns the table unchanged and renames zero
items; and the reported count is the number of items that needed
renaming. -/
theorem resequence_budget_codes_contract (items : List BudgetItem)
    (hid : (items.map (fun i => i.id)).Nodup)
    (hcode : (items.map (fun i => i.code)).Nodup)
    (htmp : ∀ i ∈ items, ¬ i.code.data.take 4 = "TMP-".data) :
    ((sortedItems ((resequence_budget_codes items).1)).map (fun i => i.code)
        = (List.range items.length).map (fun k => skCode (k + 1)))
    ∧ (((resequence_budget_codes items).1.map (fun i => i.code)).Nodup)
    ∧ (∀ s ∈ statesDuring items, (s.map (fun i => i.code)).Nodup)
    ∧ resequence_budget_codes ((resequence_budget_codes items).1)
        = ((resequence_budget_codes items).1, 0)
    ∧ (resequence_budget_codes items).1.length = items.length
    ∧ (resequence_budget_codes items).2 = (pendingOf items).length := by
  have htag : ∀ i ∈ items, ∀ t, ¬ "TMP-".data ++ t = i.code.data := by
    intro i hi t h
    apply htmp i hi
    rw [← h]
    rfl
  have h1 : (sortedItems ((resequence_budget_codes items).1)).map (fun i => i.code)
      = (List.range items.length).map (fun k => skCode (k + 1)) := by
    rw [resequence_fst hid]
    rw [sortedItems_map (applyUpd (fun q => q.2) (pendingOf items))
          (fun j => applyUpd_created _ _ j) (fun j => applyUpd_id _ _ j) hid]
    rw [← assignments_fst items]
    rw [map_assignments_codes _ _ (applyUpd_final_code hid)]
    rw [assignments_snd]
    rw [show (sortedItems items).length = items.length from (sorted_perm items).length_eq]
  have h2 : (((resequence_budget_codes items).1).map (fun i => i.code)).Nodup := by
    have he := expected_nodup items.length
    rw [← h1] at he
    exact ((sorted_perm ((resequence_budget_codes items).1)).map
      (fun i => i.code)).nodup_iff.1 he
  have h3 : ∀ s ∈ statesDuring items, (s.map (fun i => i.code)).Nodup := by
    intro s hs
    have hpend := pending_ids_nodup hid
    unfold statesDuring at hs
    simp only [List.concat_eq_append, List.mem_append, List.mem_singleton] at hs
    rcases hs with (hs | hs) | hs
    · rcases mem_scanl_foldl phase1Step (pendingOf items) items s hs with ⟨k, hk⟩
      subst hk
      rw [foldl_phase1 (hpend.sublist ((List.take_sublist k _).map _))]
      exact nodup_state_phase1 hid hcode htag _ (fun q hq => List.take_subset k _ hq)
    · subst hs
      rw [foldl_phase1 hpend]
      exact nodup_state_phase1 hid hcode htag _ (fun q hq => hq)
    · rcases mem_scanl_foldl phase2Step (pendingOf items)
        ((pendingOf items).foldl phase1Step items) s hs with ⟨k, hk⟩
      subst hk
      rw [foldl_phase1 hpend]
      rw [foldl_phase2 (hpend.sublist ((List.take_sublist k _).map _))]
      have h := nodup_state_phase2 hid (List.take k (pendingOf items))
        (fun q hq => List.take_subset k _ hq)
      rwa [← List.map_map] at h
  have h4 : resequence_budget_codes ((resequence_budget_codes items).1)
      = ((resequence_budget_codes items).1, 0) :=
    resequence_of_pending_nil (pending_final_nil hid)
  have h5 : ((resequence_budget_codes items).1).length = items.length := by
    rw [resequence_fst hid, List.length_map]
  have h6 : (resequence_budget_codes items).2 = (pendingOf items).length := by
    rcases eq_or_ne (pendingOf items) [] with hp | hp
    · rw [resequence_of_pending_nil hp, hp]
      rfl
    · have hne : ¬ (pendingOf items).isEmpty = true := by
        intro hc
        exact hp (List.isEmpty_iff.1 hc)
      unfold resequence_budget_codes
      rw [if_neg hne]
  exact ⟨h1, h2, h3, h4, h5, h6⟩

/-- Witness: a two-item table (created at t=3 with id 2 and code "A0", and
at t=10 with id 5 and code "B0") satisfies the contract's hypotheses, and
the contract applies: resequencing yields codes SK01, SK02 in creation
order, collision-free throughout, with an idempotent second run. -/
theorem resequence_budget_codes_contract_witness :
    ((([⟨5, "B0", "b", none, none, none, 10⟩,
        ⟨2, "A0", "a", none, none, none, 3⟩] : List BudgetItem).map
      (fun i => i.id)).Nodup)
    ∧ ((([⟨5, "B0", "b", none, none, none, 10⟩,
        ⟨2, "A0", "a", none, none, none, 3⟩] : List BudgetItem).map
      (fun i => i.code)).Nodup)
    ∧ (∀ i ∈ ([⟨5, "B0", "b", none, none, none, 10⟩,
        ⟨2, "A0", "a", none, none, none, 3⟩] : List BudgetItem),
      ¬ i.code.data.take 4 = "TMP-".data)
    ∧ (((sortedItems ((resequence_budget_codes
          [⟨5, "B0", "b", none, none, none, 10⟩,
           ⟨2, "A0", "a", none, none, none, 3⟩]).1)).map (fun i => i.code)
        = (List.range ([⟨5, "B0", "b", none, none, none, 10⟩,
           ⟨2, "A0", "a", none, none, none, 3⟩] : List BudgetItem).length).map
            (fun k => skCode (k + 1)))
      ∧ (((resequence_budget_codes
          [⟨5, "B0", "b", none, none, none, 10⟩,
           ⟨2, "A0", "a", none, none, none, 3⟩]).1.map (fun i => i.code)).Nodup)
      ∧ (∀ s ∈ statesDuring
          [⟨5, "B0", "b", none, none, none, 10⟩,
           ⟨2, "A0", "a", none, none, none, 3⟩],
          (s.map (fun i => i.code)).Nodup)
      ∧ resequence_budget_codes ((resequence_budget_codes
          [⟨5, "B0", "b", none, none, none, 10⟩,
           ⟨2, "A0", "a", none, none, none, 3⟩]).1)
          = ((resequence_budget_codes
          [⟨5, "B0", "b", none, none, none, 10⟩,
           ⟨2, "A0", "a", none, none, none, 3⟩]).1, 0)
      ∧ (resequence_budget_codes
          [⟨5, "B0", "b", none, none, none, 10⟩,
           ⟨2, "A0", "a", none, none, none, 3⟩]).1.length
          = ([⟨5, "B0", "b", none, none, none, 10⟩,
           ⟨2, "A0", "a", none, none, none, 3⟩] : List BudgetItem).length
      ∧ (resequence_budget_codes
          [⟨5, "B0", "b", none, none, none, 10⟩,
           ⟨2, "A0", "a", none, none, none, 3⟩]).2
          = (pendingOf
          [⟨5, "B0", "b", none, none, none, 10⟩,
           ⟨2, "A0", "a", none, none, none, 3⟩]).length) :=
  ⟨by decide, by decide, by decide,
   resequence_budget_codes_contract
     [⟨5, "B0", "b", none, none, none, 10⟩,
      ⟨2, "A0", "a", none, none, none, 3⟩]
     (by decide) (by decide) (by decide)⟩
